import Mathlib

/-!
Shallow embedding of the `wuffs_aux` JSON decoder driver
(`src/internal/cgen/auxiliary/json.cc`) and the io-buffer primitives
(`src/internal/cgen/base/io-public.h`).

Byte strings (`std::string` holding data, token source bytes, the JSON
Pointer) are modelled as `List Nat` (each entry a byte); error messages are
Lean `String`s.  `uint64_t` values are `Nat` with explicit saturation at
`2^64 - 1` where the code saturates; `uint32_t` counters wrap at `2^32`
exactly where the C arithmetic wraps.

The low-level token decoder (`wuffs_json__decoder`), the byte source
(`sync_io::Input`), and the numeric/encoding primitives
(`wuffs_base__parse_number_*`, `wuffs_base__utf_8__encode`,
`wuffs_base__base_16__decode4`) are external to the repository sources under
verification; they appear here as oracle parameters (`Oracles`, `Externals`)
so that every theorem quantifies over their behaviour.
-/

/-- `wuffs_base__u64__sat_add` (external primitive): saturating 64-bit
addition, for operands already below `2^64`. -/
def sat_add (x y : Nat) : Nat := min (x + y) (2 ^ 64 - 1)

/-- `wuffs_base__io_buffer_meta` from `io-public.h`: write index, read index,
stream-relative position of the buffer start, and the closed flag. -/
structure IOBufferMeta where
  wi : Nat
  ri : Nat
  pos : Nat
  closed : Bool
  deriving Repr, DecidableEq

/-- `wuffs_base__io_buffer` from `io-public.h`: a byte buffer (`data`, whose
length is the capacity `data.len`) plus metadata. -/
structure IOBuffer where
  data : List Nat
  meta : IOBufferMeta
  deriving Repr, DecidableEq

/-- `wuffs_base__io_buffer__compact` from `io-public.h`: move the written but
unread bytes `data[ri..wi)` to the start of the buffer, add the old `ri` to
`pos` (saturating), set `wi := wi - ri` and `ri := 0`.  Bytes at positions
`≥ wi - ri` are not written by the `memmove` and keep their old values.  The
C function returns immediately when `ri = 0` (the null-pointer guard does not
arise here). -/
def IOBuffer.compact (buf : IOBuffer) : IOBuffer :=
  if buf.meta.ri = 0 then buf
  else
    let n := buf.meta.wi - buf.meta.ri
    { data := (List.range buf.data.length).map (fun i =>
        if i < n then buf.data.getD (buf.meta.ri + i) 0 else buf.data.getD i 0),
      meta := { wi := n, ri := 0,
                pos := sat_add buf.meta.pos buf.meta.ri,
                closed := buf.meta.closed } }

/-- Token value-base categories (`WUFFS_BASE__TOKEN__VBC__*`).  The numeric
encoding of the category inside the 64-bit token is external to `src/`; the
driver only compares categories for equality. -/
inductive VBC where
  | filler
  | structure_
  | string_
  | unicodeCodePoint
  | literal
  | number
  deriving Repr, DecidableEq

/-- Token value-base detail (`WUFFS_BASE__TOKEN__VBD__*`).  The detail is a
bitfield in the token; the driver only ever tests individual bits with `&`,
so each bit the driver reads is modelled as an independent `Bool` field.  For
`unicodeCodePoint` tokens the whole detail is the code point (`ucp`). -/
structure VBD where
  push : Bool := false
  pop : Bool := false
  toList : Bool := false
  drop : Bool := false
  copy : Bool := false
  backslashX : Bool := false
  chainMustBeUtf8 : Bool := false
  litNull : Bool := false
  litTrue : Bool := false
  formatText : Bool := false
  contentIntegerSigned : Bool := false
  contentFloatingPoint : Bool := false
  contentNegInf : Bool := false
  contentPosInf : Bool := false
  contentNegNan : Bool := false
  contentPosNan : Bool := false
  ucp : Nat := 0
  deriving Repr, DecidableEq

/-- `wuffs_base__token`, as the driver reads it: `length()` (source-byte
span), `value_base_category()`, `value_base_detail()`, `continued()`. -/
structure Token where
  length : Nat
  vbc : VBC
  vbd : VBD
  continued : Bool
  deriving Repr, DecidableEq

instance : Inhabited Token := ⟨⟨0, VBC.filler, {}, false⟩⟩

/-- Token-buffer metadata (write and read indices). -/
structure TokenBufferMeta where
  wi : Nat
  ri : Nat
  deriving Repr, DecidableEq

/-- `wuffs_base__token_buffer`: a fixed array of tokens (length = capacity)
plus read/write indices. -/
structure TokenBuffer where
  data : List Token
  meta : TokenBufferMeta
  deriving Repr, DecidableEq

/-- Modelled from the spec: `wuffs_base__token_buffer__compact` is not under
`src/`; per spec section 3 (TokenWindow) it moves the unread tokens to index
0, mirroring the byte-buffer compaction without touching bytes. -/
def TokenBuffer.compact (buf : TokenBuffer) : TokenBuffer :=
  if buf.meta.ri = 0 then buf
  else
    let n := buf.meta.wi - buf.meta.ri
    { data := (List.range buf.data.length).map (fun i =>
        if i < n then buf.data.getD (buf.meta.ri + i) default
        else buf.data.getD i default),
      meta := { wi := n, ri := 0 } }

/-- The resumable status of the low-level decoder
(`wuffs_base__status`): null/ok, the two suspensions, or a terminal error
message. -/
inductive Stat where
  | ok
  | shortRead
  | shortWrite
  | err (msg : String)
  deriving Repr, DecidableEq

/-- The two external collaborators of the driver: the low-level token decoder
(`dec->decode_tokens`, with private state `σ`) and the byte source
(`input.CopyIn`, with private state `ι`). -/
structure Oracles (σ ι : Type) where
  decodeTokens : σ → TokenBuffer → IOBuffer → σ × Stat × TokenBuffer × IOBuffer
  copyIn : ι → IOBuffer → ι × IOBuffer × String

/-- External numeric/encoding primitives used by the driver, all outside
`src/`: `wuffs_base__parse_number_u64/i64/f64` (f64 results are represented
by their IEEE-754 bit pattern), the base-16 decoder underlying
`DecodeJson_DecodeBackslashX`, and `wuffs_base__utf_8__encode`. -/
structure Externals where
  parse_number_u64 : List Nat → Option Nat
  parse_number_i64 : List Nat → Option Int
  parse_number_f64 : List Nat → Option Nat
  base16Decode : List Nat → String × List Nat
  utf8Encode : Nat → List Nat

/-- The driver state threaded through `WUFFS_AUX__DECODE_JSON__GET_THE_NEXT_TOKEN`
and the walker: token buffer and its latest status, io buffer, the latched
I/O error message, `cursor_index`, and the two oracle states. -/
structure DriverState (σ ι : Type) where
  tokBuf : TokenBuffer
  tokStatus : Stat
  ioBuf : IOBuffer
  ioErrorMessage : String
  cursorIndex : Nat
  decSt : σ
  inSt : ι
  deriving DecidableEq

def DecodeJson_BadJsonPointer : String := "wuffs_aux::DecodeJson: bad JSON Pointer"
def DecodeJson_NoMatch : String := "wuffs_aux::DecodeJson: no match"
def errBadCursorIndex : String := "wuffs_aux::DecodeJson: internal error: bad cursor_index"
def errIoBufClosed : String := "wuffs_aux::DecodeJson: internal error: io_buf is closed"
def errIoBufFull : String := "wuffs_aux::DecodeJson: internal error: io_buf is full"
def errBadTokenIndexes : String := "wuffs_aux::DecodeJson: internal error: bad token indexes"
def errUnexpectedToken : String := "wuffs_aux::DecodeJson: internal error: unexpected token"
def errOutOfMemory : String := "wuffs_aux::DecodeJson: out of memory"

/-- Outcome of one execution of the refill-loop body (the part of the
`while (ri >= wi)` loop before `decode_tokens` is re-invoked): either proceed
to the decoder call, or `goto done` with a terminal message. -/
inductive RefillOut (σ ι : Type) where
  | proceed (st : DriverState σ ι)
  | fail (msg : String) (st : DriverState σ ι)

/-- The status-dispatch part of `WUFFS_AUX__DECODE_JSON__GET_THE_NEXT_TOKEN`
(json.cc lines 46-78): on `ok` do nothing; on `short_write` compact the token
buffer; on `short_read` run the latched-message / cursor / closed checks,
compact the io buffer, check fullness, reset `cursor_index` to the new `ri`,
and pull via `CopyIn`, latching its message; on a terminal decoder status
propagate its message.  (The `WORKBUF_LEN` check compares the constant
`WUFFS_JSON__DECODER_WORKBUF_LEN_MAX_INCL_WORST_CASE = 0` with 0 and never
fires.) -/
def refillStep {σ ι : Type} (or : Oracles σ ι) (st : DriverState σ ι) :
    RefillOut σ ι :=
  match st.tokStatus with
  | Stat.ok => RefillOut.proceed st
  | Stat.shortWrite => RefillOut.proceed { st with tokBuf := st.tokBuf.compact }
  | Stat.shortRead =>
    if st.ioErrorMessage ≠ "" then
      RefillOut.fail st.ioErrorMessage { st with ioErrorMessage := "" }
    else if st.cursorIndex ≠ st.ioBuf.meta.ri then
      RefillOut.fail errBadCursorIndex st
    else if st.ioBuf.meta.closed then
      RefillOut.fail errIoBufClosed st
    else
      let io2 := st.ioBuf.compact
      if io2.data.length ≤ io2.meta.wi then
        RefillOut.fail errIoBufFull { st with ioBuf := io2 }
      else
        let c2 := io2.meta.ri
        let t := or.copyIn st.inSt io2
        RefillOut.proceed { st with ioBuf := t.2.1, inSt := t.1,
                                    ioErrorMessage := t.2.2, cursorIndex := c2 }
  | Stat.err msg => RefillOut.fail msg st

/-- Result of `WUFFS_AUX__DECODE_JSON__GET_THE_NEXT_TOKEN`: a token together
with `token_len`, the source bytes at `token_ptr`, and the updated state; or
`goto done` with a message; or fuel exhaustion (no terminating C execution
corresponds to `fuelOut`). -/
inductive GetTok (σ ι : Type) where
  | tok (token : Token) (token_len : Nat) (bytes : List Nat) (st : DriverState σ ι)
  | err (msg : String) (st : DriverState σ ι)
  | fuelOut
  deriving DecidableEq

/-- The tail of `WUFFS_AUX__DECODE_JSON__GET_THE_NEXT_TOKEN` (json.cc lines
82-91), executed once `tok_buf` is non-empty: pop the front token, check the
token indexes, read the `token_len` source bytes at `cursor_index`, and
advance `cursor_index` by `token_len`. -/
def consumeToken {σ ι : Type} (st : DriverState σ ι) : GetTok σ ι :=
  let token := st.tokBuf.data.getD st.tokBuf.meta.ri default
  let st1 : DriverState σ ι :=
    { st with tokBuf := { st.tokBuf with
        meta := { st.tokBuf.meta with ri := st.tokBuf.meta.ri + 1 } } }
  let token_len := token.length
  if st1.ioBuf.meta.ri < st1.cursorIndex ∨
      st1.ioBuf.meta.ri - st1.cursorIndex < token_len then
    GetTok.err errBadTokenIndexes st1
  else
    GetTok.tok token token_len
      ((st1.ioBuf.data.drop st1.cursorIndex).take token_len)
      { st1 with cursorIndex := st1.cursorIndex + token_len }

/-- `WUFFS_AUX__DECODE_JSON__GET_THE_NEXT_TOKEN` (json.cc lines 44-91):
while the token buffer is empty, dispatch on the last decoder status
(`refillStep`) and re-invoke `decode_tokens`; then consume the front token. -/
def getNextToken {σ ι : Type} (or : Oracles σ ι) :
    Nat → DriverState σ ι → GetTok σ ι
  | 0, _ => GetTok.fuelOut
  | fuel + 1, st =>
    if st.tokBuf.meta.wi ≤ st.tokBuf.meta.ri then
      match refillStep or st with
      | RefillOut.fail msg st' => GetTok.err msg st'
      | RefillOut.proceed st' =>
        let r := or.decodeTokens st'.decSt st'.tokBuf st'.ioBuf
        getNextToken or fuel
          { st' with decSt := r.1, tokStatus := r.2.1,
                     tokBuf := r.2.2.1, ioBuf := r.2.2.2 }
    else consumeToken st

/-- `DecodeJson_DecodeBackslashX` (json.cc lines 128-152): decode the token's
source bytes as base-16 and append the decoded bytes to `str`, returning the
message (`""` = success, as the callers test `!ret_error_message.empty()`)
and the extended accumulator.  The 64-byte chunking over the external
`wuffs_base__base_16__decode4` primitive is abstracted into the single
external call `ext.base16Decode`, which yields the message and the bytes
decoded before any error (the chunk loop only re-feeds the remaining input
to the same primitive, appending chunk by chunk). -/
def decodeBackslashX (ext : Externals) (str bytes : List Nat) :
    String × List Nat :=
  let r := ext.base16Decode bytes
  (r.1, str ++ r.2)

/-- Result of `DecodeJson_WalkJsonPointerFragment`: the returned message
(`""` = success) together with the driver state. -/
inductive WalkRes (σ ι : Type) where
  | res (msg : String) (st : DriverState σ ι)
  | fuelOut
  deriving DecidableEq

/-- `check_that_a_value_follows` (json.cc lines 314-334): consume filler,
then undo the consumption of the first non-filler token (decrement the token
buffer read index, subtract `token_len` from `cursor_index`), and return
`NoMatch` if that token is a `Structure` with the `POP` bit, else success. -/
def checkValueFollows {σ ι : Type} (or : Oracles σ ι) (gf : Nat) :
    Nat → DriverState σ ι → WalkRes σ ι
  | 0, _ => WalkRes.fuelOut
  | fuel + 1, st =>
    match getNextToken or gf st with
    | GetTok.fuelOut => WalkRes.fuelOut
    | GetTok.err msg st' => WalkRes.res msg st'
    | GetTok.tok token token_len _ st' =>
      if token.vbc = VBC.filler then checkValueFollows or gf fuel st'
      else
        let st'' : DriverState σ ι :=
          { st' with
            tokBuf := { st'.tokBuf with
              meta := { st'.tokBuf.meta with ri := st'.tokBuf.meta.ri - 1 } },
            cursorIndex := st'.cursorIndex - token_len }
        if token.vbc = VBC.structure_ ∧ token.vbd.pop = true then
          WalkRes.res DecodeJson_NoMatch st''
        else WalkRes.res "" st''

/-- The skip loop of `do_list` (json.cc lines 286-311): maintain `skip_depth`
(a `uint32_t`, incremented on `PUSH` with wraparound) and `remaining`;
`continued` or filler tokens are skipped; a non-`PUSH` `Structure` token at
`skip_depth = 0` returns `NoMatch`; once `skip_depth` returns to 0 past a
complete value, decrement `remaining` and proceed to
`check_that_a_value_follows` when it reaches 0. -/
def doListSkip {σ ι : Type} (or : Oracles σ ι) (gf : Nat) :
    Nat → DriverState σ ι → Nat → Nat → WalkRes σ ι
  | 0, _, _, _ => WalkRes.fuelOut
  | fuel + 1, st, remaining, skipDepth =>
    match getNextToken or gf st with
    | GetTok.fuelOut => WalkRes.fuelOut
    | GetTok.err msg st' => WalkRes.res msg st'
    | GetTok.tok token _ _ st' =>
      if token.continued = true ∨ token.vbc = VBC.filler then
        doListSkip or gf fuel st' remaining skipDepth
      else if token.vbc = VBC.structure_ ∧ token.vbd.push = true then
        doListSkip or gf fuel st' remaining ((skipDepth + 1) % 2 ^ 32)
      else if token.vbc = VBC.structure_ ∧ skipDepth = 0 then
        WalkRes.res DecodeJson_NoMatch st'
      else
        let sd := if token.vbc = VBC.structure_ then skipDepth - 1 else skipDepth
        if 0 < sd then doListSkip or gf fuel st' remaining sd
        else if remaining - 1 = 0 then checkValueFollows or gf fuel st'
        else doListSkip or gf fuel st' (remaining - 1) sd

/-- `do_list` (json.cc lines 271-312): parse the fragment as an unsigned
decimal integer (`wuffs_base__parse_number_u64`); on failure return
`NoMatch`; if the parsed value is 0 go directly to
`check_that_a_value_follows`, else skip that many values. -/
def doList {σ ι : Type} (or : Oracles σ ι) (gf : Nat) (ext : Externals)
    (fuel : Nat) (st : DriverState σ ι) (fragment : List Nat) : WalkRes σ ι :=
  match ext.parse_number_u64 fragment with
  | none => WalkRes.res DecodeJson_NoMatch st
  | some n =>
    if n = 0 then checkValueFollows or gf fuel st
    else doListSkip or gf fuel st n 0

/-- Result of the key-reading inner loop of `do_dict` (json.cc lines
187-247): the key matched the fragment (return `""`), the key completed
without matching (fall through to `skip_the_next_dict_value`), or the walk
terminates with a message (`NoMatch` on a non-`PUSH` `Structure`, the
`unexpected token` internal error via `fail`, or a propagated error via
`done`). -/
inductive ReadKeyRes (σ ι : Type) where
  | matched (st : DriverState σ ι)
  | skipValue (st : DriverState σ ι)
  | terminate (msg : String) (st : DriverState σ ι)
  | fuelOut
  deriving DecidableEq

/-- The key-reading inner loop of `do_dict` (json.cc lines 187-247):
accumulate the next dict key into `str` using the string-assembly rules
(DROP / COPY / BACKSLASH_X / UnicodeCodePoint); a `Structure` `PUSH` goes to
`fail`, any other `Structure` returns `NoMatch`; when the key completes
(`continued = false`) compare it with the fragment. -/
def readKey {σ ι : Type} (or : Oracles σ ι) (gf : Nat) (ext : Externals)
    (fragment : List Nat) : Nat → DriverState σ ι → List Nat → ReadKeyRes σ ι
  | 0, _, _ => ReadKeyRes.fuelOut
  | fuel + 1, st, str =>
    match getNextToken or gf st with
    | GetTok.fuelOut => ReadKeyRes.fuelOut
    | GetTok.err msg st' => ReadKeyRes.terminate msg st'
    | GetTok.tok token _ bytes st' =>
      match token.vbc with
      | VBC.filler => readKey or gf ext fragment fuel st' str
      | VBC.structure_ =>
        if token.vbd.push = true then ReadKeyRes.terminate errUnexpectedToken st'
        else ReadKeyRes.terminate DecodeJson_NoMatch st'
      | VBC.string_ =>
        if token.vbd.drop = true then
          if token.continued = true then readKey or gf ext fragment fuel st' str
          else if str = fragment then ReadKeyRes.matched st'
          else ReadKeyRes.skipValue st'
        else if token.vbd.copy = true then
          let str2 := str ++ bytes
          if token.continued = true then readKey or gf ext fragment fuel st' str2
          else if str2 = fragment then ReadKeyRes.matched st'
          else ReadKeyRes.skipValue st'
        else if token.vbd.backslashX = true then
          let dbx := decodeBackslashX ext str bytes
          if dbx.1 ≠ "" then ReadKeyRes.terminate dbx.1 st'
          else if token.continued = true then readKey or gf ext fragment fuel st' dbx.2
          else if dbx.2 = fragment then ReadKeyRes.matched st'
          else ReadKeyRes.skipValue st'
        else ReadKeyRes.terminate errUnexpectedToken st'
      | VBC.unicodeCodePoint =>
        let str2 := str ++ ext.utf8Encode token.vbd.ucp
        if token.continued = true then readKey or gf ext fragment fuel st' str2
        else if str2 = fragment then ReadKeyRes.matched st'
        else ReadKeyRes.skipValue st'
      | VBC.literal => ReadKeyRes.terminate errUnexpectedToken st'
      | VBC.number => ReadKeyRes.terminate errUnexpectedToken st'

/-- Result of `skip_the_next_dict_value`: done skipping (loop back to the
key reader), or terminate with a propagated message. -/
inductive SkipRes (σ ι : Type) where
  | doneSkipping (st : DriverState σ ι)
  | terminate (msg : String) (st : DriverState σ ι)
  | fuelOut
  deriving DecidableEq

/-- `skip_the_next_dict_value` (json.cc lines 249-268): skip one complete
dict value with `skip_depth` bookkeeping; the `uint32_t` decrement on a
non-`PUSH` `Structure` token wraps at 0. -/
def dictSkip {σ ι : Type} (or : Oracles σ ι) (gf : Nat) :
    Nat → DriverState σ ι → Nat → SkipRes σ ι
  | 0, _, _ => SkipRes.fuelOut
  | fuel + 1, st, skipDepth =>
    match getNextToken or gf st with
    | GetTok.fuelOut => SkipRes.fuelOut
    | GetTok.err msg st' => SkipRes.terminate msg st'
    | GetTok.tok token _ _ st' =>
      if token.continued = true ∨ token.vbc = VBC.filler then
        dictSkip or gf fuel st' skipDepth
      else if token.vbc = VBC.structure_ ∧ token.vbd.push = true then
        dictSkip or gf fuel st' ((skipDepth + 1) % 2 ^ 32)
      else
        let sd :=
          if token.vbc = VBC.structure_ then
            if skipDepth = 0 then 2 ^ 32 - 1 else skipDepth - 1
          else skipDepth
        if sd = 0 then SkipRes.doneSkipping st'
        else dictSkip or gf fuel st' sd

/-- `do_dict` (json.cc lines 180-269): alternate between reading the next
dict key and skipping the next dict value until the key matches the fragment
or the walk terminates. -/
def doDict {σ ι : Type} (or : Oracles σ ι) (gf : Nat) (ext : Externals)
    (fragment : List Nat) : Nat → DriverState σ ι → WalkRes σ ι
  | 0, _ => WalkRes.fuelOut
  | fuel + 1, st =>
    match readKey or gf ext fragment (fuel + 1) st [] with
    | ReadKeyRes.fuelOut => WalkRes.fuelOut
    | ReadKeyRes.terminate msg st' => WalkRes.res msg st'
    | ReadKeyRes.matched st' => WalkRes.res "" st'
    | ReadKeyRes.skipValue st' =>
      match dictSkip or gf (fuel + 1) st' 0 with
      | SkipRes.fuelOut => WalkRes.fuelOut
      | SkipRes.terminate msg st'' => WalkRes.res msg st''
      | SkipRes.doneSkipping st'' => doDict or gf ext fragment fuel st''

/-- `DecodeJson_WalkJsonPointerFragment` (json.cc lines 154-340): consume
filler; the first other token must be a `Structure` with the `PUSH` bit
(else `NoMatch`); descend into `do_list` when the `TO_LIST` bit is set, else
into `do_dict`. -/
def walkFragmentLoop {σ ι : Type} (or : Oracles σ ι) (gf : Nat)
    (ext : Externals) (fragment : List Nat) :
    Nat → DriverState σ ι → WalkRes σ ι
  | 0, _ => WalkRes.fuelOut
  | fuel + 1, st =>
    match getNextToken or gf st with
    | GetTok.fuelOut => WalkRes.fuelOut
    | GetTok.err msg st' => WalkRes.res msg st'
    | GetTok.tok token _ _ st' =>
      if token.vbc = VBC.filler then
        walkFragmentLoop or gf ext fragment fuel st'
      else if ¬(token.vbc = VBC.structure_ ∧ token.vbd.push = true) then
        WalkRes.res DecodeJson_NoMatch st'
      else if token.vbd.toList = true then doList or gf ext fuel st' fragment
      else doDict or gf ext fragment fuel st'

/-- The scanning loop of `DecodeJson_SplitJsonPointer` (json.cc lines
100-124), with the loop condition `i < s.size()` kept explicit and a fuel
argument for termination; `splitJsonPointer` supplies fuel `s.length - i`,
which is enough to reach the loop exit (each iteration advances `i` by at
least 1).  Bytes: 47 = `'/'`, 126 = `'~'`, 48 = `'0'`, 49 = `'1'`. -/
def splitGo (s : List Nat) : Nat → Nat → List Nat → List Nat × Nat
  | 0, i, frag => (frag, i)
  | fuel + 1, i, frag =>
    if i < s.length then
      let c := s.getD i 0
      if c = 47 then (frag, i)
      else if c ≠ 126 then splitGo s fuel (i + 1) (frag ++ [c])
      else if s.length ≤ i + 1 then ([], 0)
      else
        let c2 := s.getD (i + 1) 0
        if c2 = 48 then splitGo s fuel (i + 2) (frag ++ [126])
        else if c2 = 49 then splitGo s fuel (i + 2) (frag ++ [47])
        else ([], 0)
    else (frag, i)

/-- `DecodeJson_SplitJsonPointer` (json.cc lines 97-126): scan the fragment
starting at byte `i`, decoding `~0` to `~` and `~1` to `/`; return the
decoded fragment and the index of the next unread byte, or `([], 0)` on
invalid JSON Pointer syntax. -/
def DecodeJson_SplitJsonPointer (s : List Nat) (i : Nat) : List Nat × Nat :=
  splitGo s (s.length - i) i []

/-- Spec-side reference for C7 (follows the spec's words, not the source):
scan one fragment of a JSON Pointer given as the suffix list, replacing `~0`
by `~` and `~1` by `/`, stopping at the next `/` or end of string; `none` on
a lone trailing `~` or a `~` followed by a byte other than `0`/`1`.  Returns
the decoded fragment and the number of bytes consumed. -/
def specSplitFragment : List Nat → Option (List Nat × Nat)
  | [] => some ([], 0)
  | c :: rest =>
    if c = 47 then some ([], 0)
    else if c = 126 then
      match rest with
      | [] => none
      | d :: rest2 =>
        if d = 48 then (specSplitFragment rest2).map (fun p => (126 :: p.1, p.2 + 2))
        else if d = 49 then (specSplitFragment rest2).map (fun p => (47 :: p.1, p.2 + 2))
        else none
    else (specSplitFragment rest).map (fun p => (c :: p.1, p.2 + 1))

/-- The syntactic-badness condition named by claim C7: the byte string
contains a `~` that is at end of input or followed by a byte other than `0`
or `1`. -/
def hasBadTilde : List Nat → Bool
  | [] => false
  | c :: rest =>
    if c = 126 then
      match rest with
      | [] => true
      | d :: _ => (if d ≠ 48 ∧ d ≠ 49 then true else false) || hasBadTilde rest
    else hasBadTilde rest

/-- The full syntactic-badness condition named by claim C7: some fragment
does not begin with `/` (equivalently, the pointer is nonempty and does not
start with `/`), or some `~` escape is invalid. -/
def claimPointerSyntaxBad (s : List Nat) : Bool :=
  (s ≠ [] ∧ s.getD 0 0 ≠ 47) ∨ hasBadTilde s

/-- The JSON-Pointer walking loop of `DecodeJson` (json.cc lines 385-403),
parametrized over the per-fragment walk `walk` (instantiated with
`DecodeJson_WalkJsonPointerFragment` in `decodeJson`): while `i` is inside
the pointer, require `s[i] = '/'`, split the next fragment, fail with
`BadJsonPointer` when the split reports index 0, walk the fragment, and
propagate its message when non-empty.  `α` is the walked driver state;
`none` is fuel exhaustion. -/
def pointerPhase {α : Type} (walk : List Nat → α → Option (String × α)) :
    Nat → List Nat → Nat → α → Option (String × α)
  | 0, _, _, _ => none
  | fuel + 1, s, i, a =>
    if i < s.length then
      if s.getD i 0 ≠ 47 then some (DecodeJson_BadJsonPointer, a)
      else
        let split := DecodeJson_SplitJsonPointer s (i + 1)
        if split.2 = 0 then some (DecodeJson_BadJsonPointer, a)
        else
          match walk split.1 a with
          | none => none
          | some (msg, a') =>
            if msg ≠ "" then some (msg, a')
            else pointerPhase walk fuel s split.2 a'
    else some ("", a)

/-- `DecodeJsonResult` (json.cc lines 25-28). -/
structure DecodeJsonResult where
  error_message : String
  cursor_position : Nat
  deriving Repr, DecidableEq

/-- The user callbacks (`DecodeJsonCallbacks`), with private state `κ`
threaded explicitly; each `Push`/`Pop`/`Append*` returns an error string
(`""` = ok).  `Done` receives the result by reference and may mutate it, so
it returns the (possibly modified) result. -/
structure Callbacks (κ : Type) where
  push : VBD → κ → String × κ
  pop : VBD → κ → String × κ
  appendNull : κ → String × κ
  appendBool : Bool → κ → String × κ
  appendI64 : Int → κ → String × κ
  appendF64 : Nat → κ → String × κ
  appendTextString : List Nat → κ → String × κ
  appendByteString : List Nat → κ → String × κ
  done : DecodeJsonResult → κ → DecodeJsonResult × κ

/-- The default (base-class) `DecodeJsonCallbacks::Done` (json.cc lines
35-38): a no-op. -/
def defaultDone {κ : Type} (r : DecodeJsonResult) (k : κ) :
    DecodeJsonResult × κ := (r, k)

/-- IEEE-754 bit pattern fed to `AppendF64` for `CONTENT_NEG_INF`. -/
def negInfBits : Nat := 0xFFF0000000000000
/-- IEEE-754 bit pattern fed to `AppendF64` for `CONTENT_POS_INF`. -/
def posInfBits : Nat := 0x7FF0000000000000
/-- IEEE-754 bit pattern fed to `AppendF64` for `CONTENT_NEG_NAN`. -/
def negNanBits : Nat := 0xFFFFFFFFFFFFFFFF
/-- IEEE-754 bit pattern fed to `AppendF64` for `CONTENT_POS_NAN`. -/
def posNanBits : Nat := 0x7FFFFFFFFFFFFFFF

/-- The `uint32_t` increment of `depth++` / `skip_depth++`. -/
def u32inc (d : Nat) : Nat := (d + 1) % 2 ^ 32
/-- The `uint32_t` decrement of `depth--` / `skip_depth--`. -/
def u32dec (d : Nat) : Nat := if d = 0 then 2 ^ 32 - 1 else d - 1

/-- The main token-processing loop of `DecodeJson` (json.cc lines 405-539):
get the next token and dispatch on its category, maintaining `depth`, the
string accumulator `str`, and the callback state; `some (msg, st, k)` is a
`goto done` with `ret_error_message = msg` and `none` is fuel exhaustion. -/
def mainLoop {σ ι κ : Type} (or : Oracles σ ι) (gf : Nat) (ext : Externals)
    (cbs : Callbacks κ) :
    Nat → DriverState σ ι → Nat → List Nat → κ →
    Option (String × DriverState σ ι × κ)
  | 0, _, _, _, _ => none
  | fuel + 1, st, depth, str, k =>
    match getNextToken or gf st with
    | GetTok.fuelOut => none
    | GetTok.err msg st' => some (msg, st', k)
    | GetTok.tok token _ bytes st' =>
      match token.vbc with
      | VBC.filler => mainLoop or gf ext cbs fuel st' depth str k
      | VBC.structure_ =>
        if token.vbd.push = true then
          let r := cbs.push token.vbd k
          if r.1 ≠ "" then some (r.1, st', r.2)
          else mainLoop or gf ext cbs fuel st' (u32inc depth) str r.2
        else
          let r := cbs.pop token.vbd k
          let depth2 := u32dec depth
          if r.1 ≠ "" ∨ depth2 = 0 then some (r.1, st', r.2)
          else mainLoop or gf ext cbs fuel st' depth2 str r.2
      | VBC.string_ =>
        if token.vbd.drop = true then
          if token.continued = true then mainLoop or gf ext cbs fuel st' depth str k
          else
            let r := if token.vbd.chainMustBeUtf8 = true
              then cbs.appendTextString str k else cbs.appendByteString str k
            if r.1 ≠ "" ∨ depth = 0 then some (r.1, st', r.2)
            else mainLoop or gf ext cbs fuel st' depth [] r.2
        else if token.vbd.copy = true then
          let str2 := str ++ bytes
          if token.continued = true then mainLoop or gf ext cbs fuel st' depth str2 k
          else
            let r := if token.vbd.chainMustBeUtf8 = true
              then cbs.appendTextString str2 k else cbs.appendByteString str2 k
            if r.1 ≠ "" ∨ depth = 0 then some (r.1, st', r.2)
            else mainLoop or gf ext cbs fuel st' depth [] r.2
        else if token.vbd.backslashX = true then
          let dbx := decodeBackslashX ext str bytes
          if dbx.1 ≠ "" then some (dbx.1, st', k)
          else if token.continued = true then mainLoop or gf ext cbs fuel st' depth dbx.2 k
          else
            let r := if token.vbd.chainMustBeUtf8 = true
              then cbs.appendTextString dbx.2 k else cbs.appendByteString dbx.2 k
            if r.1 ≠ "" ∨ depth = 0 then some (r.1, st', r.2)
            else mainLoop or gf ext cbs fuel st' depth [] r.2
        else some (errUnexpectedToken, st', k)
      | VBC.unicodeCodePoint =>
        let str2 := str ++ ext.utf8Encode token.vbd.ucp
        if token.continued = true then mainLoop or gf ext cbs fuel st' depth str2 k
        else some (errUnexpectedToken, st', k)
      | VBC.literal =>
        let r := if token.vbd.litNull = true then cbs.appendNull k
          else cbs.appendBool token.vbd.litTrue k
        if r.1 ≠ "" ∨ depth = 0 then some (r.1, st', r.2)
        else mainLoop or gf ext cbs fuel st' depth str r.2
      | VBC.number =>
        if token.vbd.formatText = true then
          match (if token.vbd.contentIntegerSigned = true
                 then ext.parse_number_i64 bytes else none) with
          | some v =>
            let r := cbs.appendI64 v k
            if r.1 ≠ "" ∨ depth = 0 then some (r.1, st', r.2)
            else mainLoop or gf ext cbs fuel st' depth str r.2
          | none =>
            match (if token.vbd.contentFloatingPoint = true
                   then ext.parse_number_f64 bytes else none) with
            | some v =>
              let r := cbs.appendF64 v k
              if r.1 ≠ "" ∨ depth = 0 then some (r.1, st', r.2)
              else mainLoop or gf ext cbs fuel st' depth str r.2
            | none => some (errUnexpectedToken, st', k)
        else if token.vbd.contentNegInf = true then
          let r := cbs.appendF64 negInfBits k
          if r.1 ≠ "" ∨ depth = 0 then some (r.1, st', r.2)
          else mainLoop or gf ext cbs fuel st' depth str r.2
        else if token.vbd.contentPosInf = true then
          let r := cbs.appendF64 posInfBits k
          if r.1 ≠ "" ∨ depth = 0 then some (r.1, st', r.2)
          else mainLoop or gf ext cbs fuel st' depth str r.2
        else if token.vbd.contentNegNan = true then
          let r := cbs.appendF64 negNanBits k
          if r.1 ≠ "" ∨ depth = 0 then some (r.1, st', r.2)
          else mainLoop or gf ext cbs fuel st' depth str r.2
        else if token.vbd.contentPosNan = true then
          let r := cbs.appendF64 posNanBits k
          if r.1 ≠ "" ∨ depth = 0 then some (r.1, st', r.2)
          else mainLoop or gf ext cbs fuel st' depth str r.2
        else some (errUnexpectedToken, st', k)

/-- The result assembled at the `done:` label (json.cc lines 543-545):
`ret_error_message` plus the saturating sum of `io_buf->meta.pos` and
`cursor_index`. -/
def mkResult {σ ι : Type} (msg : String) (st : DriverState σ ι) :
    DecodeJsonResult := ⟨msg, sat_add st.ioBuf.meta.pos st.cursorIndex⟩

/-- The initial token buffer of `DecodeJson` (json.cc lines 374-377): 256
token slots, write and read indices 0. -/
def initTokBuf : TokenBuffer := ⟨List.replicate 256 default, ⟨0, 0⟩⟩

/-- The fallback io buffer of `DecodeJson` (json.cc lines 351-356), used when
the input does not bring its own: 4096 bytes, empty metadata. -/
def fallbackIoBuf : IOBuffer := ⟨List.replicate 4096 0, ⟨0, 0, 0, false⟩⟩

/-- The body of `DecodeJson` after decoder allocation succeeded (json.cc
lines 369-539): walk the JSON Pointer (propagating any non-empty message),
then run the main loop.  `some (msg, st, k)` is arrival at the `done:` label
with `ret_error_message = msg`. -/
def decodeJsonAfterAlloc {σ ι κ : Type} (or : Oracles σ ι) (gf : Nat)
    (ext : Externals) (cbs : Callbacks κ) (json_pointer : List Nat)
    (fuel : Nat) (st0 : DriverState σ ι) (k0 : κ) :
    Option (String × DriverState σ ι × κ) :=
  match pointerPhase
      (fun frag st => match walkFragmentLoop or gf ext frag fuel st with
        | WalkRes.fuelOut => none
        | WalkRes.res m s => some (m, s))
      fuel json_pointer 0 st0 with
  | none => none
  | some (msg, st1) =>
    if msg ≠ "" then some (msg, st1, k0)
    else mainLoop or gf ext cbs fuel st1 0 [] k0

/-- `DecodeJson` (json.cc lines 344-548): choose the io buffer, allocate the
decoder (`allocDec = none` models allocation failure, returning the
out-of-memory message with `cursor_index = 0`), run the pointer walk and the
main loop, assemble the result at `done:`, invoke `callbacks.Done` on it, and
return what `Done` left in the result object together with the final callback
state.  The quirks loop only mutates the opaque decoder state and is absorbed
into the initial oracle state `d0`. -/
def chosenIoBuf (bringsOwn : Option IOBuffer) : IOBuffer :=
  match bringsOwn with
  | some b => b
  | none => fallbackIoBuf

/-- The driver state at the start of `DecodeJson` (json.cc lines 358-378):
empty token buffer, null status, the chosen io buffer, empty latched I/O
message, `cursor_index = 0`. -/
def initDriverState {σ ι : Type} (io0 : IOBuffer) (d0 : σ) (inSt0 : ι) :
    DriverState σ ι :=
  { tokBuf := initTokBuf, tokStatus := Stat.ok, ioBuf := io0,
    ioErrorMessage := "", cursorIndex := 0, decSt := d0, inSt := inSt0 }

def decodeJson {σ ι κ : Type} (or : Oracles σ ι) (ext : Externals)
    (cbs : Callbacks κ) (bringsOwn : Option IOBuffer) (inSt0 : ι) (k0 : κ)
    (allocDec : Option σ) (json_pointer : List Nat) (gf fuel : Nat) :
    Option (DecodeJsonResult × κ) :=
  let io0 := chosenIoBuf bringsOwn
  match allocDec with
  | none =>
    some (cbs.done ⟨errOutOfMemory, sat_add io0.meta.pos 0⟩ k0)
  | some d0 =>
    match decodeJsonAfterAlloc or gf ext cbs json_pointer fuel
        (initDriverState io0 d0 inSt0) k0 with
    | none => none
    | some (msg, stF, kF) => some (cbs.done (mkResult msg stF) kF)

/-- A concrete low-level-decoder oracle for witness runs: its private state
is the list of tokens still to emit; each `decode_tokens` call emits one
token when the token buffer has space and the io buffer holds the token's
source bytes (advancing the io read index by the token's length), and
reports `short_read` otherwise. -/
def scriptOracle : Oracles (List Token) Unit :=
  { decodeTokens := fun ts tb ib =>
      match ts with
      | [] => ([], Stat.shortRead, tb, ib)
      | t :: rest =>
        if tb.meta.wi < tb.data.length ∧ t.length + ib.meta.ri ≤ ib.meta.wi then
          (rest, Stat.ok,
           { tb with data := tb.data.set tb.meta.wi t,
                     meta := { tb.meta with wi := tb.meta.wi + 1 } },
           { ib with meta := { ib.meta with ri := ib.meta.ri + t.length } })
        else (t :: rest, Stat.shortRead, tb, ib),
    copyIn := fun u ib => (u, ib, "") }

/-- Events recorded by the concrete witness callbacks. -/
inductive CbEvent where
  | pushEv (v : VBD)
  | popEv (v : VBD)
  | nullEv
  | boolEv (b : Bool)
  | i64Ev (v : Int)
  | f64Ev (bits : Nat)
  | textEv (s : List Nat)
  | byteEv (s : List Nat)
  | doneEv (r : DecodeJsonResult)
  deriving Repr, DecidableEq

/-- Recording callbacks for witness runs: never return an error, append one
event per invocation. -/
def recordingCbs : Callbacks (List CbEvent) :=
  { push := fun v k => ("", k ++ [CbEvent.pushEv v]),
    pop := fun v k => ("", k ++ [CbEvent.popEv v]),
    appendNull := fun k => ("", k ++ [CbEvent.nullEv]),
    appendBool := fun b k => ("", k ++ [CbEvent.boolEv b]),
    appendI64 := fun v k => ("", k ++ [CbEvent.i64Ev v]),
    appendF64 := fun v k => ("", k ++ [CbEvent.f64Ev v]),
    appendTextString := fun s k => ("", k ++ [CbEvent.textEv s]),
    appendByteString := fun s k => ("", k ++ [CbEvent.byteEv s]),
    done := fun r k => (r, k ++ [CbEvent.doneEv r]) }

/-- Concrete external primitives for witness runs (every theorem quantifies
over `Externals`; these only instantiate it at concrete inputs): decimal
parsing, identity base-16, one-byte UTF-8. -/
def simpleExt : Externals :=
  { parse_number_u64 := fun bs =>
      if bs ≠ [] ∧ bs.all (fun b => 48 ≤ b ∧ b ≤ 57) then
        some (bs.foldl (fun a b => a * 10 + (b - 48)) 0)
      else none,
    parse_number_i64 := fun bs =>
      if bs ≠ [] ∧ bs.all (fun b => 48 ≤ b ∧ b ≤ 57) then
        some ((bs.foldl (fun a b => a * 10 + (b - 48)) 0 : Nat) : Int)
      else none,
    parse_number_f64 := fun _ => none,
    base16Decode := fun bs => ("", bs),
    utf8Encode := fun n => [n % 256] }

/-- A concrete driver state for witness runs: the token buffer holds `toks`
(all unread, capacity exactly their number), the io buffer holds `ioData`
(all written), with read index `ioRi` and cursor `cursor`. -/
def mkWitState (toks : List Token) (ioData : List Nat) (ioRi cursor : Nat) :
    DriverState (List Token) Unit :=
  { tokBuf := ⟨toks, ⟨toks.length, 0⟩⟩,
    tokStatus := Stat.ok,
    ioBuf := ⟨ioData, ⟨ioData.length, ioRi, 0, false⟩⟩,
    ioErrorMessage := "",
    cursorIndex := cursor,
    decSt := [], inSt := () }

/-- C1: cursor bookkeeping.  Part 1: the consumption step at the end of
`WUFFS_AUX__DECODE_JSON__GET_THE_NEXT_TOKEN` reports `token_len =
token.length()` and advances `cursor_index` by exactly `token.length()`.
Part 2: every token `getNextToken` produces comes from such a consumption
step.  Part 3: on io-buffer compaction, `pos` increases by the old `ri`
(saturating), `ri` resets to 0, and — since the macro resets `cursor_index`
to the new `ri` right after compacting, having checked `cursor_index = ri`
first — the saturating sum `pos + cursor_index` is unchanged.  Part 4: the
`cursor_position` of the `DecodeJsonResult` returned by `decodeJson` is the
saturating sum of `io_buf->meta.pos` and `cursor_index` at the point
processing stopped, for any `Done` callback that leaves the result
unmodified. -/
theorem c1_cursor_bookkeeping :
    (∀ (σ ι : Type) (st : DriverState σ ι) (t : Token) (len : Nat)
        (bytes : List Nat) (st' : DriverState σ ι),
        consumeToken st = GetTok.tok t len bytes st' →
        len = t.length ∧ st'.cursorIndex = st.cursorIndex + t.length) ∧
    (∀ (σ ι : Type) (or : Oracles σ ι) (fuel : Nat) (st : DriverState σ ι)
        (t : Token) (len : Nat) (bytes : List Nat) (st' : DriverState σ ι),
        getNextToken or fuel st = GetTok.tok t len bytes st' →
        ∃ stm : DriverState σ ι, consumeToken stm = GetTok.tok t len bytes st') ∧
    (∀ (buf : IOBuffer) (cursor : Nat), buf.meta.pos ≤ 2 ^ 64 - 1 →
        cursor = buf.meta.ri →
        buf.compact.meta.pos = sat_add buf.meta.pos buf.meta.ri ∧
        buf.compact.meta.ri = 0 ∧
        sat_add buf.compact.meta.pos buf.compact.meta.ri =
          sat_add buf.meta.pos cursor) ∧
    (∀ (σ ι κ : Type) (or : Oracles σ ι) (ext : Externals) (cbs : Callbacks κ)
        (bringsOwn : Option IOBuffer) (inSt0 : ι) (k0 : κ) (d0 : σ)
        (jp : List Nat) (gf fuel : Nat) (msg : String)
        (stF : DriverState σ ι) (kF : κ),
        (∀ r k, (cbs.done r k).1 = r) →
        decodeJsonAfterAlloc or gf ext cbs jp fuel
          (initDriverState (chosenIoBuf bringsOwn) d0 inSt0) k0 =
          some (msg, stF, kF) →
        ∃ out, decodeJson or ext cbs bringsOwn inSt0 k0 (some d0) jp gf fuel =
            some out ∧
          out.1.cursor_position = sat_add stF.ioBuf.meta.pos stF.cursorIndex) := by
  refine ⟨?_, ?_, ?_, ?_⟩
  · intro σ ι st t len bytes st' h
    simp only [consumeToken] at h
    split at h
    · cases h
    · cases h
      exact ⟨rfl, rfl⟩
  · intro σ ι or fuel
    induction fuel with
    | zero => intro st t len bytes st' h; cases h
    | succ n ih =>
      intro st t len bytes st' h
      unfold getNextToken at h
      split at h
      · revert h
        cases refillStep or st with
        | fail msg stf => intro h; cases h
        | proceed stp => intro h; exact ih _ _ _ _ _ h
      · exact ⟨st, h⟩
  · intro buf cursor hpos hc
    unfold IOBuffer.compact
    split
    · rename_i h0
      subst hc
      rw [h0]
      refine ⟨?_, rfl, rfl⟩
      simp only [sat_add]
      omega
    · subst hc
      refine ⟨rfl, rfl, ?_⟩
      simp only [sat_add]
      omega
  · intro σ ι κ or ext cbs bringsOwn inSt0 k0 d0 jp gf fuel msg stF kF hdone h
    refine ⟨cbs.done (mkResult msg stF) kF, ?_, ?_⟩
    · simp only [decodeJson]
      rw [h]
    · rw [hdone]
      rfl

/-- Concrete token for the C1 witness. -/
def c1WitTok : Token := ⟨2, VBC.literal, {}, false⟩

/-- Concrete driver state for the C1 witness. -/
def c1WitSt : DriverState Unit Unit :=
  { tokBuf := ⟨[c1WitTok], ⟨1, 0⟩⟩, tokStatus := Stat.ok,
    ioBuf := ⟨[10, 20, 30], ⟨3, 2, 5, false⟩⟩, ioErrorMessage := "",
    cursorIndex := 0, decSt := (), inSt := () }

/-- The state after consuming the C1 witness token. -/
def c1WitStAfter : DriverState Unit Unit :=
  { tokBuf := ⟨[c1WitTok], ⟨1, 1⟩⟩, tokStatus := Stat.ok,
    ioBuf := ⟨[10, 20, 30], ⟨3, 2, 5, false⟩⟩, ioErrorMessage := "",
    cursorIndex := 2, decSt := (), inSt := () }

/-- Witness for C1 at a concrete input: consuming a 2-byte token advances the
cursor by 2, and compacting a buffer with `ri = 1` resets `ri` to 0. -/
theorem c1_cursor_bookkeeping_witness :
    c1WitStAfter.cursorIndex = c1WitSt.cursorIndex + c1WitTok.length ∧
    (⟨[5, 6], ⟨2, 1, 7, false⟩⟩ : IOBuffer).compact.meta.ri = 0 :=
  ⟨(c1_cursor_bookkeeping.1 Unit Unit c1WitSt c1WitTok 2 [10, 20] c1WitStAfter
      (by decide)).2,
   (c1_cursor_bookkeeping.2.2.1 ⟨[5, 6], ⟨2, 1, 7, false⟩⟩ 1 (by decide)
      (by decide)).2.1⟩

/-- C3: refill-loop `short_read` handling.  With the token buffer empty and
the last decoder status `short_read`, `getNextToken` terminates with the
latched `io_error_message` when non-empty; else with the `bad cursor_index`
internal error when `cursor_index ≠ io_buf->meta.ri`; else with the
`io_buf is closed` internal error when the buffer is closed; else it
compacts the byte buffer and terminates with the `io_buf is full` internal
error when `wi` reaches the capacity after compaction; and otherwise it
resets `cursor_index` to the compacted read index, pulls via `Input.CopyIn`,
latches the returned message into `io_error_message` without failing, and
continues with the re-invoked decoder (a non-empty `CopyIn` message is
surfaced only by the first conjunct on the next `short_read`). -/
theorem c3_short_read_handling :
    ∀ (σ ι : Type) (or : Oracles σ ι) (fuel : Nat) (st : DriverState σ ι),
      st.tokBuf.meta.wi ≤ st.tokBuf.meta.ri →
      st.tokStatus = Stat.shortRead →
      ((st.ioErrorMessage ≠ "" →
          getNextToken or (fuel + 1) st =
            GetTok.err st.ioErrorMessage { st with ioErrorMessage := "" }) ∧
       (st.ioErrorMessage = "" → st.cursorIndex ≠ st.ioBuf.meta.ri →
          getNextToken or (fuel + 1) st = GetTok.err errBadCursorIndex st) ∧
       (st.ioErrorMessage = "" → st.cursorIndex = st.ioBuf.meta.ri →
          st.ioBuf.meta.closed = true →
          getNextToken or (fuel + 1) st = GetTok.err errIoBufClosed st) ∧
       (st.ioErrorMessage = "" → st.cursorIndex = st.ioBuf.meta.ri →
          st.ioBuf.meta.closed = false →
          st.ioBuf.compact.data.length ≤ st.ioBuf.compact.meta.wi →
          getNextToken or (fuel + 1) st =
            GetTok.err errIoBufFull { st with ioBuf := st.ioBuf.compact }) ∧
       (st.ioErrorMessage = "" → st.cursorIndex = st.ioBuf.meta.ri →
          st.ioBuf.meta.closed = false →
          st.ioBuf.compact.meta.wi < st.ioBuf.compact.data.length →
          getNextToken or (fuel + 1) st =
            (let io2 := st.ioBuf.compact
             let t := or.copyIn st.inSt io2
             let st1 : DriverState σ ι :=
               { st with ioBuf := t.2.1, inSt := t.1, ioErrorMessage := t.2.2,
                         cursorIndex := io2.meta.ri }
             let r := or.decodeTokens st1.decSt st1.tokBuf st1.ioBuf
             getNextToken or fuel
               { st1 with decSt := r.1, tokStatus := r.2.1,
                          tokBuf := r.2.2.1, ioBuf := r.2.2.2 }))) := by
  intro σ ι or fuel st hempty hstat
  obtain ⟨tb, ts, ib, ioe, ci, ds, is⟩ := st
  simp only at hempty hstat ⊢
  subst hstat
  refine ⟨?_, ?_, ?_, ?_, ?_⟩
  · intro hio
    simp only [getNextToken, refillStep, if_pos hempty]
    rw [if_pos hio]
  · intro hio hcur
    subst hio
    simp only [getNextToken, refillStep, if_pos hempty]
    rw [if_neg (fun h => h rfl), if_pos hcur]
  · intro hio hcur hcl
    subst hio
    simp only [getNextToken, refillStep, if_pos hempty]
    rw [if_neg (fun h => h rfl), if_neg (fun h => h hcur), hcl, if_pos rfl]
  · intro hio hcur hcl hfull
    subst hio
    simp only [getNextToken, refillStep, if_pos hempty]
    rw [if_neg (fun h => h rfl), if_neg (fun h => h hcur), hcl,
      if_neg Bool.false_ne_true, if_pos hfull]
  · intro hio hcur hcl hroom
    subst hio
    simp only [getNextToken, refillStep, if_pos hempty]
    rw [if_neg (fun h => h rfl), if_neg (fun h => h hcur), hcl,
      if_neg Bool.false_ne_true, if_neg (Nat.not_le.mpr hroom)]

/-- A trivial oracle pair for witnesses that never refill. -/
def trivOracle : Oracles Unit Unit :=
  { decodeTokens := fun d tb ib => (d, Stat.shortRead, tb, ib),
    copyIn := fun u ib => (u, ib, "") }

/-- Concrete state for the C3 witness: empty token buffer, `short_read`
status, closed io buffer, no latched message. -/
def c3WitSt : DriverState Unit Unit :=
  { tokBuf := ⟨[], ⟨0, 0⟩⟩, tokStatus := Stat.shortRead,
    ioBuf := ⟨[0], ⟨0, 0, 0, true⟩⟩, ioErrorMessage := "",
    cursorIndex := 0, decSt := (), inSt := () }

/-- Witness for C3 at a concrete input: a `short_read` with an empty latched
message, matching cursor, and a closed buffer surfaces the
`io_buf is closed` internal error (the spec's documented boundary
behavior). -/
theorem c3_short_read_handling_witness :
    getNextToken trivOracle 1 c3WitSt = GetTok.err errIoBufClosed c3WitSt :=
  (c3_short_read_handling Unit Unit trivOracle 0 c3WitSt (by decide)
    rfl).2.2.1 rfl rfl rfl

/-- C2 (amended): string-run dispatch in the main loop.  Given that the
refill loop yields token `t` with source bytes `bytes`: a String DROP token
contributes nothing; a String COPY token appends its source bytes; a String
BACKSLASH_X token appends the base-16 decoding of its source bytes; a
UnicodeCodePoint token appends the UTF-8 encoding of its detail value.  When
a String-category token has `continued = false`, the accumulated string is
dispatched to `AppendTextString` if that token's detail has the
`CHAIN_MUST_BE_UTF_8` bit and to `AppendByteString` otherwise, the
accumulator is cleared, and this counts as a completed value (the
`parsed_a_value` termination check runs).  A UnicodeCodePoint token with
`continued = false`, however, terminates with the `unexpected token`
internal error instead of dispatching — this is where the original claim
fails. -/
theorem c2_string_run_dispatch :
    ∀ (σ ι κ : Type) (or : Oracles σ ι) (gf : Nat) (ext : Externals)
      (cbs : Callbacks κ) (fuel : Nat) (st : DriverState σ ι) (depth : Nat)
      (str : List Nat) (k : κ) (t : Token) (len : Nat) (bytes : List Nat)
      (st' : DriverState σ ι),
      getNextToken or gf st = GetTok.tok t len bytes st' →
      ((t.vbc = VBC.string_ → t.vbd.drop = true → t.continued = true →
          mainLoop or gf ext cbs (fuel + 1) st depth str k =
            mainLoop or gf ext cbs fuel st' depth str k) ∧
       (t.vbc = VBC.string_ → t.vbd.drop = false → t.vbd.copy = true →
          t.continued = true →
          mainLoop or gf ext cbs (fuel + 1) st depth str k =
            mainLoop or gf ext cbs fuel st' depth (str ++ bytes) k) ∧
       (t.vbc = VBC.string_ → t.vbd.drop = false → t.vbd.copy = false →
          t.vbd.backslashX = true → (ext.base16Decode bytes).1 = "" →
          t.continued = true →
          mainLoop or gf ext cbs (fuel + 1) st depth str k =
            mainLoop or gf ext cbs fuel st' depth
              (str ++ (ext.base16Decode bytes).2) k) ∧
       (t.vbc = VBC.unicodeCodePoint → t.continued = true →
          mainLoop or gf ext cbs (fuel + 1) st depth str k =
            mainLoop or gf ext cbs fuel st' depth
              (str ++ ext.utf8Encode t.vbd.ucp) k) ∧
       (t.vbc = VBC.string_ → t.vbd.drop = true → t.continued = false →
          mainLoop or gf ext cbs (fuel + 1) st depth str k =
            (let r := if t.vbd.chainMustBeUtf8 = true
               then cbs.appendTextString str k else cbs.appendByteString str k
             if r.1 ≠ "" ∨ depth = 0 then some (r.1, st', r.2)
             else mainLoop or gf ext cbs fuel st' depth [] r.2)) ∧
       (t.vbc = VBC.string_ → t.vbd.drop = false → t.vbd.copy = true →
          t.continued = false →
          mainLoop or gf ext cbs (fuel + 1) st depth str k =
            (let r := if t.vbd.chainMustBeUtf8 = true
               then cbs.appendTextString (str ++ bytes) k
               else cbs.appendByteString (str ++ bytes) k
             if r.1 ≠ "" ∨ depth = 0 then some (r.1, st', r.2)
             else mainLoop or gf ext cbs fuel st' depth [] r.2)) ∧
       (t.vbc = VBC.string_ → t.vbd.drop = false → t.vbd.copy = false →
          t.vbd.backslashX = true → (ext.base16Decode bytes).1 = "" →
          t.continued = false →
          mainLoop or gf ext cbs (fuel + 1) st depth str k =
            (let r := if t.vbd.chainMustBeUtf8 = true
               then cbs.appendTextString (str ++ (ext.base16Decode bytes).2) k
               else cbs.appendByteString (str ++ (ext.base16Decode bytes).2) k
             if r.1 ≠ "" ∨ depth = 0 then some (r.1, st', r.2)
             else mainLoop or gf ext cbs fuel st' depth [] r.2)) ∧
       (t.vbc = VBC.unicodeCodePoint → t.continued = false →
          mainLoop or gf ext cbs (fuel + 1) st depth str k =
            some (errUnexpectedToken, st', k))) := by
  intro σ ι κ or gf ext cbs fuel st depth str k t len bytes st' hget
  obtain ⟨tlen, tvbc, tvbd, tcont⟩ := t
  refine ⟨?_, ?_, ?_, ?_, ?_, ?_, ?_, ?_⟩
  · intro hvbc hdrop hcont
    subst hvbc hcont
    simp only at hdrop
    simp only [mainLoop, hget]
    simp [hdrop]
  · intro hvbc hdrop hcopy hcont
    subst hvbc hcont
    simp only at hdrop hcopy
    simp only [mainLoop, hget]
    simp [hdrop, hcopy]
  · intro hvbc hdrop hcopy hbsx hb16 hcont
    subst hvbc hcont
    simp only at hdrop hcopy hbsx
    simp only [mainLoop, hget, decodeBackslashX]
    simp [hdrop, hcopy, hbsx, hb16]
  · intro hvbc hcont
    subst hvbc hcont
    simp only [mainLoop, hget]
    simp
  · intro hvbc hdrop hcont
    subst hvbc hcont
    simp only at hdrop
    simp only [mainLoop, hget]
    simp [hdrop]
  · intro hvbc hdrop hcopy hcont
    subst hvbc hcont
    simp only at hdrop hcopy
    simp only [mainLoop, hget]
    simp [hdrop, hcopy]
  · intro hvbc hdrop hcopy hbsx hb16 hcont
    subst hvbc hcont
    simp only at hdrop hcopy hbsx
    simp only [mainLoop, hget, decodeBackslashX]
    simp [hdrop, hcopy, hbsx, hb16]
  · intro hvbc hcont
    subst hvbc hcont
    simp only [mainLoop, hget]
    simp

/-- The token of the C2 counterexample: a `UnicodeCodePoint` token with
`continued = false` (code point 65). -/
def c2CexTok : Token := ⟨0, VBC.unicodeCodePoint, { ucp := 65 }, false⟩

/-- Main-loop state with the C2 counterexample token preloaded. -/
def c2CexSt : DriverState (List Token) Unit := mkWitState [c2CexTok] [] 0 0

/-- The state after consuming the C2 counterexample token. -/
def c2CexStAfter : DriverState (List Token) Unit :=
  { tokBuf := ⟨[c2CexTok], ⟨1, 1⟩⟩, tokStatus := Stat.ok,
    ioBuf := ⟨[], ⟨0, 0, 0, false⟩⟩, ioErrorMessage := "",
    cursorIndex := 0, decSt := [], inSt := () }

/-- Counterexample to C2 as stated: a `UnicodeCodePoint` token with
`continued = false` does not dispatch the accumulated string to
`AppendTextString`/`AppendByteString` and does not count as a completed
value — the main loop terminates with the `unexpected token` internal error
and the callback trace stays empty. -/
theorem c2_string_run_dispatch_counterexample :
    mainLoop scriptOracle 1 simpleExt recordingCbs 1 c2CexSt 0 [] [] =
      some (errUnexpectedToken, c2CexStAfter, []) ∧
    errUnexpectedToken ≠ "" := by
  constructor
  · decide
  · decide

/-- The String COPY token of the C2 witness: 2 source bytes, terminal
(`continued = false`), `CHAIN_MUST_BE_UTF_8` set. -/
def c2WitTok : Token :=
  ⟨2, VBC.string_, { copy := true, chainMustBeUtf8 := true }, false⟩

/-- Main-loop state with the C2 witness token and its source bytes. -/
def c2WitSt : DriverState (List Token) Unit := mkWitState [c2WitTok] [65, 66] 2 0

/-- The state after consuming the C2 witness token. -/
def c2WitStAfter : DriverState (List Token) Unit :=
  { tokBuf := ⟨[c2WitTok], ⟨1, 1⟩⟩, tokStatus := Stat.ok,
    ioBuf := ⟨[65, 66], ⟨2, 2, 0, false⟩⟩, ioErrorMessage := "",
    cursorIndex := 2, decSt := [], inSt := () }

/-- Witness for the amended C2 at a concrete input: a terminal COPY token
with the UTF-8 chain bit dispatches the copied bytes to `AppendTextString`
and ends the (depth-0) decode successfully. -/
theorem c2_string_run_dispatch_witness :
    mainLoop scriptOracle 1 simpleExt recordingCbs 1 c2WitSt 0 [] [] =
      some ("", c2WitStAfter, [CbEvent.textEv [65, 66]]) := by
  have h := (c2_string_run_dispatch (List Token) Unit (List CbEvent)
    scriptOracle 1 simpleExt recordingCbs 0 c2WitSt 0 [] [] c2WitTok 2
    [65, 66] c2WitStAfter (by decide)).2.2.2.2.2.1 rfl rfl rfl rfl
  rw [h]
  decide

/-- C6: number token dispatch.  Given that the refill loop yields Number
token `t` with source bytes `bytes`: with the `FORMAT_TEXT` bit,
`parse_i64` is attempted iff `CONTENT_INTEGER_SIGNED` is set (the scrutinee
`if signed then parse_i64 bytes else none` is the attempt) and on success
`AppendI64` is invoked with the parsed value as a completed value; only when
that attempt yields nothing is `parse_f64` attempted iff
`CONTENT_FLOATING_POINT` is set, invoking `AppendF64` on success; without
`FORMAT_TEXT`, the bits `CONTENT_NEG_INF` / `POS_INF` / `NEG_NAN` /
`POS_NAN` (tested in that order) select `AppendF64` with the corresponding
IEEE-754 bit pattern; any Number token matching none of these cases
terminates with the `unexpected token` internal error. -/
theorem c6_number_dispatch :
    ∀ (σ ι κ : Type) (or : Oracles σ ι) (gf : Nat) (ext : Externals)
      (cbs : Callbacks κ) (fuel : Nat) (st : DriverState σ ι) (depth : Nat)
      (str : List Nat) (k : κ) (t : Token) (len : Nat) (bytes : List Nat)
      (st' : DriverState σ ι),
      getNextToken or gf st = GetTok.tok t len bytes st' →
      t.vbc = VBC.number →
      ((∀ v, t.vbd.formatText = true →
          (if t.vbd.contentIntegerSigned = true
           then ext.parse_number_i64 bytes else none) = some v →
          mainLoop or gf ext cbs (fuel + 1) st depth str k =
            (let r := cbs.appendI64 v k
             if r.1 ≠ "" ∨ depth = 0 then some (r.1, st', r.2)
             else mainLoop or gf ext cbs fuel st' depth str r.2)) ∧
       (∀ v, t.vbd.formatText = true →
          (if t.vbd.contentIntegerSigned = true
           then ext.parse_number_i64 bytes else none) = none →
          (if t.vbd.contentFloatingPoint = true
           then ext.parse_number_f64 bytes else none) = some v →
          mainLoop or gf ext cbs (fuel + 1) st depth str k =
            (let r := cbs.appendF64 v k
             if r.1 ≠ "" ∨ depth = 0 then some (r.1, st', r.2)
             else mainLoop or gf ext cbs fuel st' depth str r.2)) ∧
       (t.vbd.formatText = true →
          (if t.vbd.contentIntegerSigned = true
           then ext.parse_number_i64 bytes else none) = none →
          (if t.vbd.contentFloatingPoint = true
           then ext.parse_number_f64 bytes else none) = none →
          mainLoop or gf ext cbs (fuel + 1) st depth str k =
            some (errUnexpectedToken, st', k)) ∧
       (t.vbd.formatText = false → t.vbd.contentNegInf = true →
          mainLoop or gf ext cbs (fuel + 1) st depth str k =
            (let r := cbs.appendF64 negInfBits k
             if r.1 ≠ "" ∨ depth = 0 then some (r.1, st', r.2)
             else mainLoop or gf ext cbs fuel st' depth str r.2)) ∧
       (t.vbd.formatText = false → t.vbd.contentNegInf = false →
          t.vbd.contentPosInf = true →
          mainLoop or gf ext cbs (fuel + 1) st depth str k =
            (let r := cbs.appendF64 posInfBits k
             if r.1 ≠ "" ∨ depth = 0 then some (r.1, st', r.2)
             else mainLoop or gf ext cbs fuel st' depth str r.2)) ∧
       (t.vbd.formatText = false → t.vbd.contentNegInf = false →
          t.vbd.contentPosInf = false → t.vbd.contentNegNan = true →
          mainLoop or gf ext cbs (fuel + 1) st depth str k =
            (let r := cbs.appendF64 negNanBits k
             if r.1 ≠ "" ∨ depth = 0 then some (r.1, st', r.2)
             else mainLoop or gf ext cbs fuel st' depth str r.2)) ∧
       (t.vbd.formatText = false → t.vbd.contentNegInf = false →
          t.vbd.contentPosInf = false → t.vbd.contentNegNan = false →
          t.vbd.contentPosNan = true →
          mainLoop or gf ext cbs (fuel + 1) st depth str k =
            (let r := cbs.appendF64 posNanBits k
             if r.1 ≠ "" ∨ depth = 0 then some (r.1, st', r.2)
             else mainLoop or gf ext cbs fuel st' depth str r.2)) ∧
       (t.vbd.formatText = false → t.vbd.contentNegInf = false →
          t.vbd.contentPosInf = false → t.vbd.contentNegNan = false →
          t.vbd.contentPosNan = false →
          mainLoop or gf ext cbs (fuel + 1) st depth str k =
            some (errUnexpectedToken, st', k))) := by
  intro σ ι κ or gf ext cbs fuel st depth str k t len bytes st' hget hvbc
  obtain ⟨tlen, tvbc, tvbd, tcont⟩ := t
  simp only at hvbc
  subst hvbc
  refine ⟨?_, ?_, ?_, ?_, ?_, ?_, ?_, ?_⟩
  · intro v hft h1
    simp only at hft
    simp only [mainLoop, hget, hft, h1]
    simp
  · intro v hft h1 h2
    simp only at hft
    simp only [mainLoop, hget, hft, h1, h2]
    simp
  · intro hft h1 h2
    simp only at hft
    simp only [mainLoop, hget, hft, h1, h2]
    simp
  · intro hft hni
    simp only at hft hni
    simp only [mainLoop, hget]
    simp [hft, hni]
  · intro hft hni hpi
    simp only at hft hni hpi
    simp only [mainLoop, hget]
    simp [hft, hni, hpi]
  · intro hft hni hpi hnn
    simp only at hft hni hpi hnn
    simp only [mainLoop, hget]
    simp [hft, hni, hpi, hnn]
  · intro hft hni hpi hnn hpn
    simp only at hft hni hpi hnn hpn
    simp only [mainLoop, hget]
    simp [hft, hni, hpi, hnn, hpn]
  · intro hft hni hpi hnn hpn
    simp only at hft hni hpi hnn hpn
    simp only [mainLoop, hget]
    simp [hft, hni, hpi, hnn, hpn]

/-- The Number token of the C6 witness: text format, signed-integer content,
source bytes `42`. -/
def c6WitTok : Token :=
  ⟨2, VBC.number, { formatText := true, contentIntegerSigned := true,
                    contentFloatingPoint := true }, false⟩

/-- Main-loop state with the C6 witness token and its source bytes. -/
def c6WitSt : DriverState (List Token) Unit := mkWitState [c6WitTok] [52, 50] 2 0

/-- The state after consuming the C6 witness token. -/
def c6WitStAfter : DriverState (List Token) Unit :=
  { tokBuf := ⟨[c6WitTok], ⟨1, 1⟩⟩, tokStatus := Stat.ok,
    ioBuf := ⟨[52, 50], ⟨2, 2, 0, false⟩⟩, ioErrorMessage := "",
    cursorIndex := 2, decSt := [], inSt := () }

/-- Witness for C6 at a concrete input: the token `42`, accepted by both
parsers, is reported through `AppendI64` (not `AppendF64`). -/
theorem c6_number_dispatch_witness :
    mainLoop scriptOracle 1 simpleExt recordingCbs 1 c6WitSt 0 [] [] =
      some ("", c6WitStAfter, [CbEvent.i64Ev 42]) := by
  have h := (c6_number_dispatch (List Token) Unit (List CbEvent)
    scriptOracle 1 simpleExt recordingCbs 0 c6WitSt 0 [] [] c6WitTok 2
    [52, 50] c6WitStAfter (by decide) rfl).1 42 rfl (by decide)
  rw [h]
  decide

/-- C4: PointerWalker list descent.  `do_list` parses the fragment with the
(external) unsigned-decimal parser and returns `NoMatch` on parse failure
without consuming anything; a parsed 0 goes straight to the peek phase;
otherwise the skip loop runs with `skip_depth` bookkeeping: continued and
filler tokens are skipped, `PUSH` increments the depth, a non-`PUSH`
`Structure` token at depth 0 returns `NoMatch`, leaving a nested container
decrements it, and each completed top-level value decrements `remaining`
until exactly `N` values have been skipped and the peek phase starts.  The
peek phase consumes filler, then un-consumes the next token (token-buffer
read index decremented, `cursor_index` restored by `token_len`) and returns
`NoMatch` if it is a `Structure` `POP` and success otherwise, leaving the
token unconsumed. -/
theorem c4_list_descent :
    (∀ (σ ι : Type) (or : Oracles σ ι) (gf : Nat) (ext : Externals)
        (fuel : Nat) (st : DriverState σ ι) (fragment : List Nat),
        ext.parse_number_u64 fragment = none →
        doList or gf ext fuel st fragment = WalkRes.res DecodeJson_NoMatch st) ∧
    (∀ (σ ι : Type) (or : Oracles σ ι) (gf : Nat) (ext : Externals)
        (fuel : Nat) (st : DriverState σ ι) (fragment : List Nat),
        ext.parse_number_u64 fragment = some 0 →
        doList or gf ext fuel st fragment = checkValueFollows or gf fuel st) ∧
    (∀ (σ ι : Type) (or : Oracles σ ι) (gf : Nat) (ext : Externals)
        (fuel : Nat) (st : DriverState σ ι) (fragment : List Nat) (n : Nat),
        ext.parse_number_u64 fragment = some n → n ≠ 0 →
        doList or gf ext fuel st fragment = doListSkip or gf fuel st n 0) ∧
    (∀ (σ ι : Type) (or : Oracles σ ι) (gf fuel : Nat)
        (st : DriverState σ ι) (rem d : Nat) (t : Token) (len : Nat)
        (bytes : List Nat) (st' : DriverState σ ι),
        getNextToken or gf st = GetTok.tok t len bytes st' →
        ((t.continued = true ∨ t.vbc = VBC.filler →
            doListSkip or gf (fuel + 1) st rem d =
              doListSkip or gf fuel st' rem d) ∧
         (t.continued = false → t.vbc = VBC.structure_ → t.vbd.push = true →
            doListSkip or gf (fuel + 1) st rem d =
              doListSkip or gf fuel st' rem ((d + 1) % 2 ^ 32)) ∧
         (t.continued = false → t.vbc = VBC.structure_ → t.vbd.push = false →
            d = 0 →
            doListSkip or gf (fuel + 1) st rem d =
              WalkRes.res DecodeJson_NoMatch st') ∧
         (t.continued = false → t.vbc = VBC.structure_ → t.vbd.push = false →
            1 < d →
            doListSkip or gf (fuel + 1) st rem d =
              doListSkip or gf fuel st' rem (d - 1)) ∧
         (t.continued = false → t.vbc = VBC.structure_ → t.vbd.push = false →
            d = 1 →
            doListSkip or gf (fuel + 1) st rem d =
              (if rem - 1 = 0 then checkValueFollows or gf fuel st'
               else doListSkip or gf fuel st' (rem - 1) 0)) ∧
         (t.continued = false → t.vbc ≠ VBC.structure_ → t.vbc ≠ VBC.filler →
            0 < d →
            doListSkip or gf (fuel + 1) st rem d =
              doListSkip or gf fuel st' rem d) ∧
         (t.continued = false → t.vbc ≠ VBC.structure_ → t.vbc ≠ VBC.filler →
            d = 0 →
            doListSkip or gf (fuel + 1) st rem d =
              (if rem - 1 = 0 then checkValueFollows or gf fuel st'
               else doListSkip or gf fuel st' (rem - 1) 0)))) ∧
    (∀ (σ ι : Type) (or : Oracles σ ι) (gf fuel : Nat)
        (st : DriverState σ ι) (t : Token) (len : Nat) (bytes : List Nat)
        (st' : DriverState σ ι),
        getNextToken or gf st = GetTok.tok t len bytes st' →
        ((t.vbc = VBC.filler →
            checkValueFollows or gf (fuel + 1) st =
              checkValueFollows or gf fuel st') ∧
         (t.vbc ≠ VBC.filler →
            checkValueFollows or gf (fuel + 1) st =
              (let st'' : DriverState σ ι :=
                 { st' with
                   tokBuf := { st'.tokBuf with
                     meta := { st'.tokBuf.meta with
                       ri := st'.tokBuf.meta.ri - 1 } },
                   cursorIndex := st'.cursorIndex - len }
               if t.vbc = VBC.structure_ ∧ t.vbd.pop = true
               then WalkRes.res DecodeJson_NoMatch st''
               else WalkRes.res "" st'')))) := by
  refine ⟨?_, ?_, ?_, ?_, ?_⟩
  · intro σ ι or gf ext fuel st fragment hp
    simp only [doList, hp]
  · intro σ ι or gf ext fuel st fragment hp
    simp only [doList, hp]
    simp
  · intro σ ι or gf ext fuel st fragment n hp hn
    simp only [doList, hp]
    simp [hn]
  · intro σ ι or gf fuel st rem d t len bytes st' hget
    refine ⟨?_, ?_, ?_, ?_, ?_, ?_, ?_⟩
    · intro hcf
      simp only [doListSkip, hget]
      simp [hcf]
    · intro hcont hvbc hpush
      simp only [doListSkip, hget]
      simp [hcont, hvbc, hpush]
    · intro hcont hvbc hpush hd
      subst hd
      simp only [doListSkip, hget]
      simp [hcont, hvbc, hpush]
    · intro hcont hvbc hpush hd
      simp only [doListSkip, hget]
      simp [hcont, hvbc, hpush, show ¬d = 0 by omega, show 0 < d - 1 by omega]
    · intro hcont hvbc hpush hd
      subst hd
      simp only [doListSkip, hget]
      simp [hcont, hvbc, hpush]
    · intro hcont hvbc hfill hd
      simp only [doListSkip, hget]
      simp [hcont, hvbc, hfill, hd]
    · intro hcont hvbc hfill hd
      subst hd
      simp only [doListSkip, hget]
      simp [hcont, hvbc, hfill]
  · intro σ ι or gf fuel st t len bytes st' hget
    refine ⟨?_, ?_⟩
    · intro hvbc
      simp only [checkValueFollows, hget]
      simp [hvbc]
    · intro hvbc
      simp only [checkValueFollows, hget]
      simp [hvbc]

/-- The `Structure` `POP` token of the C4 witness. -/
def c4PopTok : Token := ⟨1, VBC.structure_, { pop := true }, false⟩

/-- Walker state with the C4 witness token preloaded. -/
def c4WitSt : DriverState (List Token) Unit := mkWitState [c4PopTok] [93] 1 0

/-- The state after consuming the C4 witness token. -/
def c4WitStMid : DriverState (List Token) Unit :=
  { tokBuf := ⟨[c4PopTok], ⟨1, 1⟩⟩, tokStatus := Stat.ok,
    ioBuf := ⟨[93], ⟨1, 1, 0, false⟩⟩, ioErrorMessage := "",
    cursorIndex := 1, decSt := [], inSt := () }

/-- Witness for C4 at concrete inputs: an unparsable (empty) fragment makes
the list walk return `NoMatch` without consuming anything, and the peek
phase, seeing a `Structure` `POP`, returns `NoMatch` with the token
un-consumed (the state is restored exactly). -/
theorem c4_list_descent_witness :
    doList scriptOracle 1 simpleExt 1 c4WitSt [] =
      WalkRes.res DecodeJson_NoMatch c4WitSt ∧
    checkValueFollows scriptOracle 1 1 c4WitSt =
      WalkRes.res DecodeJson_NoMatch c4WitSt := by
  constructor
  · exact c4_list_descent.1 (List Token) Unit scriptOracle 1 simpleExt 1
      c4WitSt [] (by decide)
  · have h := (c4_list_descent.2.2.2.2 (List Token) Unit scriptOracle 1 0
      c4WitSt c4PopTok 1 [93] c4WitStMid (by decide)).2 (by decide)
    rw [h]
    decide

/-- C5: PointerWalker container entry and dict descent.  Entry: after
consuming filler, the first token must be a `Structure` with the `PUSH` bit
— anything else returns `NoMatch` — and `TO_LIST` selects list mode, else
dict mode.  Dict mode: the key reader accumulates the key per the
string-assembly rules (COPY appends the source bytes, DROP contributes
nothing, UnicodeCodePoint appends the UTF-8 encoding) and on the terminal
token compares the key byte-for-byte with the fragment: equality returns
success positioned right after the key (the walker resumes in the key's
value), inequality moves to skipping the value; a non-`PUSH` `Structure`
while reading a key returns `NoMatch`; a `PUSH` while reading a key returns
the `unexpected token` internal error. -/
theorem c5_container_entry_dict :
    (∀ (σ ι : Type) (or : Oracles σ ι) (gf : Nat) (ext : Externals)
        (fragment : List Nat) (fuel : Nat) (st : DriverState σ ι) (t : Token)
        (len : Nat) (bytes : List Nat) (st' : DriverState σ ι),
        getNextToken or gf st = GetTok.tok t len bytes st' →
        ((t.vbc = VBC.filler →
            walkFragmentLoop or gf ext fragment (fuel + 1) st =
              walkFragmentLoop or gf ext fragment fuel st') ∧
         (t.vbc ≠ VBC.filler → ¬(t.vbc = VBC.structure_ ∧ t.vbd.push = true) →
            walkFragmentLoop or gf ext fragment (fuel + 1) st =
              WalkRes.res DecodeJson_NoMatch st') ∧
         (t.vbc = VBC.structure_ → t.vbd.push = true → t.vbd.toList = true →
            walkFragmentLoop or gf ext fragment (fuel + 1) st =
              doList or gf ext fuel st' fragment) ∧
         (t.vbc = VBC.structure_ → t.vbd.push = true → t.vbd.toList = false →
            walkFragmentLoop or gf ext fragment (fuel + 1) st =
              doDict or gf ext fragment fuel st'))) ∧
    (∀ (σ ι : Type) (or : Oracles σ ι) (gf : Nat) (ext : Externals)
        (fragment : List Nat) (fuel : Nat) (st st' : DriverState σ ι),
        (readKey or gf ext fragment (fuel + 1) st [] =
            ReadKeyRes.matched st' →
          doDict or gf ext fragment (fuel + 1) st = WalkRes.res "" st') ∧
        (∀ msg, readKey or gf ext fragment (fuel + 1) st [] =
            ReadKeyRes.terminate msg st' →
          doDict or gf ext fragment (fuel + 1) st = WalkRes.res msg st') ∧
        (∀ st'', readKey or gf ext fragment (fuel + 1) st [] =
            ReadKeyRes.skipValue st' →
          dictSkip or gf (fuel + 1) st' 0 = SkipRes.doneSkipping st'' →
          doDict or gf ext fragment (fuel + 1) st =
            doDict or gf ext fragment fuel st'')) ∧
    (∀ (σ ι : Type) (or : Oracles σ ι) (gf : Nat) (ext : Externals)
        (fragment : List Nat) (fuel : Nat) (st : DriverState σ ι)
        (str : List Nat) (t : Token) (len : Nat) (bytes : List Nat)
        (st' : DriverState σ ι),
        getNextToken or gf st = GetTok.tok t len bytes st' →
        ((t.vbc = VBC.structure_ → t.vbd.push = true →
            readKey or gf ext fragment (fuel + 1) st str =
              ReadKeyRes.terminate errUnexpectedToken st') ∧
         (t.vbc = VBC.structure_ → t.vbd.push = false →
            readKey or gf ext fragment (fuel + 1) st str =
              ReadKeyRes.terminate DecodeJson_NoMatch st') ∧
         (t.vbc = VBC.string_ → t.vbd.drop = false → t.vbd.copy = true →
            t.continued = true →
            readKey or gf ext fragment (fuel + 1) st str =
              readKey or gf ext fragment fuel st' (str ++ bytes)) ∧
         (t.vbc = VBC.string_ → t.vbd.drop = false → t.vbd.copy = true →
            t.continued = false → str ++ bytes = fragment →
            readKey or gf ext fragment (fuel + 1) st str =
              ReadKeyRes.matched st') ∧
         (t.vbc = VBC.string_ → t.vbd.drop = false → t.vbd.copy = true →
            t.continued = false → str ++ bytes ≠ fragment →
            readKey or gf ext fragment (fuel + 1) st str =
              ReadKeyRes.skipValue st') ∧
         (t.vbc = VBC.unicodeCodePoint → t.continued = true →
            readKey or gf ext fragment (fuel + 1) st str =
              readKey or gf ext fragment fuel st'
                (str ++ ext.utf8Encode t.vbd.ucp)) ∧
         (t.vbc = VBC.string_ → t.vbd.drop = true → t.continued = false →
            str = fragment →
            readKey or gf ext fragment (fuel + 1) st str =
              ReadKeyRes.matched st'))) := by
  refine ⟨?_, ?_, ?_⟩
  · intro σ ι or gf ext fragment fuel st t len bytes st' hget
    obtain ⟨tlen, tvbc, tvbd, tcont⟩ := t
    refine ⟨?_, ?_, ?_, ?_⟩
    · intro hvbc
      simp only at hvbc
      subst hvbc
      simp only [walkFragmentLoop, hget]
      simp
    · intro hvbc hns
      simp only [walkFragmentLoop, hget]
      simp only at hvbc hns
      simp [hvbc, hns]
    · intro hvbc hpush htl
      simp only at hvbc hpush htl
      subst hvbc
      simp only [walkFragmentLoop, hget]
      simp [hpush, htl]
    · intro hvbc hpush htl
      simp only at hvbc hpush htl
      subst hvbc
      simp only [walkFragmentLoop, hget]
      simp [hpush, htl]
  · intro σ ι or gf ext fragment fuel st st'
    refine ⟨?_, ?_, ?_⟩
    · intro h
      simp only [doDict, h]
    · intro msg h
      simp only [doDict, h]
    · intro st'' h hskip
      simp only [doDict, h, hskip]
  · intro σ ι or gf ext fragment fuel st str t len bytes st' hget
    obtain ⟨tlen, tvbc, tvbd, tcont⟩ := t
    refine ⟨?_, ?_, ?_, ?_, ?_, ?_, ?_⟩
    · intro hvbc hpush
      simp only at hvbc hpush
      subst hvbc
      simp only [readKey, hget]
      simp [hpush]
    · intro hvbc hpush
      simp only at hvbc hpush
      subst hvbc
      simp only [readKey, hget]
      simp [hpush]
    · intro hvbc hdrop hcopy hcont
      simp only at hvbc hdrop hcopy hcont
      subst hvbc hcont
      simp only [readKey, hget]
      simp [hdrop, hcopy]
    · intro hvbc hdrop hcopy hcont heq
      simp only at hvbc hdrop hcopy hcont
      subst hvbc hcont
      simp only [readKey, hget]
      simp [hdrop, hcopy, heq]
    · intro hvbc hdrop hcopy hcont hne
      simp only at hvbc hdrop hcopy hcont
      subst hvbc hcont
      simp only [readKey, hget]
      simp [hdrop, hcopy, hne]
    · intro hvbc hcont
      simp only at hvbc hcont
      subst hvbc hcont
      simp only [readKey, hget]
      simp
    · intro hvbc hdrop hcont heq
      simp only at hvbc hdrop hcont
      subst hvbc hcont
      simp only [readKey, hget]
      simp [hdrop, heq]

/-- The terminal COPY key token of the C5 witness (source byte `a`). -/
def c5KeyTok : Token := ⟨1, VBC.string_, { copy := true }, false⟩

/-- Walker state with the C5 witness key token preloaded. -/
def c5WitSt : DriverState (List Token) Unit := mkWitState [c5KeyTok] [97] 1 0

/-- The state after consuming the C5 witness key token. -/
def c5WitStAfter : DriverState (List Token) Unit :=
  { tokBuf := ⟨[c5KeyTok], ⟨1, 1⟩⟩, tokStatus := Stat.ok,
    ioBuf := ⟨[97], ⟨1, 1, 0, false⟩⟩, ioErrorMessage := "",
    cursorIndex := 1, decSt := [], inSt := () }

/-- Witness for C5 at a concrete input: a dict key equal to the fragment
makes the dict walk return success, positioned right after the key token. -/
theorem c5_container_entry_dict_witness :
    doDict scriptOracle 1 simpleExt [97] 1 c5WitSt =
      WalkRes.res "" c5WitStAfter := by
  have hk := (c5_container_entry_dict.2.2 (List Token) Unit scriptOracle 1
    simpleExt [97] 0 c5WitSt [] c5KeyTok 1 [97] c5WitStAfter
    (by decide)).2.2.2.1 rfl rfl rfl rfl (by decide)
  exact (c5_container_entry_dict.2.1 (List Token) Unit scriptOracle 1
    simpleExt [97] 0 c5WitSt c5WitStAfter).1 hk

/-- A failing refill step carries a non-empty message, provided the latest
decoder status is not a terminal error with an empty message. -/
theorem refillStep_fail_msg {σ ι : Type} (or : Oracles σ ι)
    (st : DriverState σ ι) (msg : String) (st' : DriverState σ ι)
    (hTS : st.tokStatus ≠ Stat.err "")
    (h : refillStep or st = RefillOut.fail msg st') : msg ≠ "" := by
  obtain ⟨tb, ts, ib, ioe, ci, ds, is⟩ := st
  cases ts with
  | ok => cases h
  | shortWrite => cases h
  | shortRead =>
    simp only [refillStep] at h
    split at h
    · rename_i hio
      cases h
      exact hio
    · split at h
      · cases h
        decide
      · split at h
        · cases h
          decide
        · split at h
          · cases h
            decide
          · cases h
  | err m =>
    cases h
    intro hm
    subst hm
    exact hTS rfl

/-- A proceeding refill step does not change the decoder status. -/
theorem refillStep_proceed_status {σ ι : Type} (or : Oracles σ ι)
    (st : DriverState σ ι) (st1 : DriverState σ ι)
    (h : refillStep or st = RefillOut.proceed st1) :
    st1.tokStatus = st.tokStatus := by
  obtain ⟨tb, ts, ib, ioe, ci, ds, is⟩ := st
  cases ts with
  | ok => cases h; rfl
  | shortWrite => cases h; rfl
  | shortRead =>
    simp only [refillStep] at h
    split at h
    · cases h
    · split at h
      · cases h
      · split at h
        · cases h
        · split at h
          · cases h
          · cases h
            rfl
  | err m => cases h

/-- Any terminal message `getNextToken` produces is non-empty, and any token
it produces leaves a decoder status that is not an empty-message error —
provided the incoming status is not an empty-message error and the decoder
oracle never returns one. -/
theorem getNextToken_err_msg {σ ι : Type} (or : Oracles σ ι)
    (hE : ∀ d tb ib, (or.decodeTokens d tb ib).2.1 ≠ Stat.err "") :
    ∀ (gf : Nat) (st : DriverState σ ι),
      st.tokStatus ≠ Stat.err "" →
      ((∀ msg st', getNextToken or gf st = GetTok.err msg st' → msg ≠ "") ∧
       (∀ t len bytes st', getNextToken or gf st = GetTok.tok t len bytes st' →
          st'.tokStatus ≠ Stat.err "")) := by
  intro gf
  induction gf with
  | zero =>
    intro st hTS
    constructor
    · intro msg st' h
      simp only [getNextToken] at h
      cases h
    · intro t len bytes st' h
      simp only [getNextToken] at h
      cases h
  | succ n ih =>
    intro st hTS
    constructor
    · intro msg st' h
      rw [getNextToken] at h
      split at h
      · revert h
        cases hr : refillStep or st with
        | fail m stf =>
          intro h
          cases h
          exact refillStep_fail_msg or st msg st' hTS hr
        | proceed stp =>
          intro h
          exact (ih _ (hE stp.decSt stp.tokBuf stp.ioBuf)).1 _ _ h
      · simp only [consumeToken] at h
        split at h
        · cases h
          decide
        · cases h
    · intro t len bytes st' h
      rw [getNextToken] at h
      split at h
      · revert h
        cases hr : refillStep or st with
        | fail m stf =>
          intro h
          cases h
        | proceed stp =>
          intro h
          exact (ih _ (hE stp.decSt stp.tokBuf stp.ioBuf)).2 _ _ _ _ h
      · simp only [consumeToken] at h
        split at h
        · cases h
        · cases h
          exact hTS

/-- Number of `Push` events in a recorded callback trace. -/
def countPush (l : List CbEvent) : Nat :=
  l.countP (fun e => match e with | CbEvent.pushEv _ => true | _ => false)

/-- Number of `Pop` events in a recorded callback trace. -/
def countPop (l : List CbEvent) : Nat :=
  l.countP (fun e => match e with | CbEvent.popEv _ => true | _ => false)

/-- With the recording callbacks (which never return an error), a successful
main-loop run appends a trace whose push count plus the starting depth
agrees with its pop count modulo `2^32` (the `uint32_t` width of `depth`),
and whose push/pop total is bounded by the fuel. -/
theorem mainLoop_recording_balance {σ ι : Type} (or : Oracles σ ι) (gf : Nat)
    (ext : Externals)
    (hE : ∀ d tb ib, (or.decodeTokens d tb ib).2.1 ≠ Stat.err "") :
    ∀ (fuel : Nat) (st : DriverState σ ι) (depth : Nat) (str : List Nat)
      (k : List CbEvent) (stF : DriverState σ ι) (kF : List CbEvent),
      st.tokStatus ≠ Stat.err "" → depth < 2 ^ 32 →
      mainLoop or gf ext recordingCbs fuel st depth str k =
        some ("", stF, kF) →
      ∃ Δ, kF = k ++ Δ ∧
        (countPush Δ + depth) % 2 ^ 32 = countPop Δ % 2 ^ 32 ∧
        countPush Δ + countPop Δ ≤ fuel := by
  intro fuel
  induction fuel with
  | zero =>
    intro st depth str k stF kF hTS hd h
    simp only [mainLoop] at h
    cases h
  | succ n ih =>
    intro st depth str k stF kF hTS hd h
    rw [mainLoop] at h
    revert h
    cases hg : getNextToken or gf st with
    | fuelOut => intro h; cases h
    | err msg st' =>
      intro h
      cases h
      exact absurd rfl ((getNextToken_err_msg or hE gf st hTS).1 _ _ hg)
    | tok t len bytes st' =>
      intro h
      have hTS' := (getNextToken_err_msg or hE gf st hTS).2 _ _ _ _ hg
      obtain ⟨tlen, tvbc, tvbd, tcont⟩ := t
      cases tvbc with
      | filler =>
        obtain ⟨Δ, hk, hmod, hle⟩ := ih st' depth str k stF kF hTS' hd h
        exact ⟨Δ, hk, hmod, by omega⟩
      | structure_ =>
        simp only [recordingCbs] at h
        by_cases hp : tvbd.push = true
        · rw [if_pos hp] at h
          rw [if_neg (fun hh : ("" : String) ≠ "" => hh rfl)] at h
          have hd2 : u32inc depth < 2 ^ 32 := Nat.mod_lt _ (by norm_num)
          obtain ⟨Δ, hk, hmod, hle⟩ :=
            ih st' (u32inc depth) str (k ++ [CbEvent.pushEv tvbd]) stF kF hTS'
              hd2 h
          refine ⟨CbEvent.pushEv tvbd :: Δ, by simpa using hk, ?_, ?_⟩
          · simp [countPush, countPop, List.countP_cons] at hmod ⊢
            simp only [u32inc] at hmod
            omega
          · simp [countPush, countPop, List.countP_cons] at hle ⊢
            omega
        · rw [if_neg hp] at h
          simp only [ne_eq, eq_self_iff_true, not_true, false_or] at h
          by_cases hz : u32dec depth = 0
          · rw [if_pos hz] at h
            cases h
            refine ⟨[CbEvent.popEv tvbd], rfl, ?_, ?_⟩
            · simp [countPush, countPop, List.countP_cons,
                List.countP_nil]
              simp only [u32dec] at hz
              split at hz
              · omega
              · omega
            · simp [countPush, countPop, List.countP_cons,
                List.countP_nil]
          · rw [if_neg hz] at h
            have hd2 : u32dec depth < 2 ^ 32 := by
              simp only [u32dec]
              split
              · norm_num
              · omega
            obtain ⟨Δ, hk, hmod, hle⟩ :=
              ih st' (u32dec depth) str (k ++ [CbEvent.popEv tvbd]) stF kF
                hTS' hd2 h
            refine ⟨CbEvent.popEv tvbd :: Δ, by simpa using hk, ?_, ?_⟩
            · simp [countPush, countPop, List.countP_cons] at hmod ⊢
              simp only [u32dec] at hmod
              split at hmod
              · omega
              · omega
            · simp [countPush, countPop, List.countP_cons] at hle ⊢
              omega
      | string_ =>
        simp only [recordingCbs] at h
        by_cases hd1 : tvbd.drop = true
        · rw [if_pos hd1] at h
          by_cases hc : tcont = true
          · rw [if_pos hc] at h
            obtain ⟨Δ, hk, hmod, hle⟩ := ih st' depth str k stF kF hTS' hd h
            exact ⟨Δ, hk, hmod, by omega⟩
          · rw [if_neg hc] at h
            by_cases hch : tvbd.chainMustBeUtf8 = true
            · rw [if_pos hch] at h
              dsimp only at h
              simp only [ne_eq, eq_self_iff_true, not_true, false_or] at h
              by_cases hz : depth = 0
              · rw [if_pos hz] at h
                cases h
                refine ⟨[CbEvent.textEv str], rfl, ?_, ?_⟩
                · simp [countPush, countPop, hz]
                · simp [countPush, countPop]
              · rw [if_neg hz] at h
                obtain ⟨Δ, hk, hmod, hle⟩ :=
                  ih st' depth [] (k ++ [CbEvent.textEv str]) stF kF hTS' hd h
                refine ⟨CbEvent.textEv str :: Δ, by simpa using hk, ?_, ?_⟩
                · simp [countPush, countPop, List.countP_cons] at hmod ⊢
                  omega
                · simp [countPush, countPop, List.countP_cons] at hle ⊢
                  omega
            · rw [if_neg hch] at h
              dsimp only at h
              simp only [ne_eq, eq_self_iff_true, not_true, false_or] at h
              by_cases hz : depth = 0
              · rw [if_pos hz] at h
                cases h
                refine ⟨[CbEvent.byteEv str], rfl, ?_, ?_⟩
                · simp [countPush, countPop, hz]
                · simp [countPush, countPop]
              · rw [if_neg hz] at h
                obtain ⟨Δ, hk, hmod, hle⟩ :=
                  ih st' depth [] (k ++ [CbEvent.byteEv str]) stF kF hTS' hd h
                refine ⟨CbEvent.byteEv str :: Δ, by simpa using hk, ?_, ?_⟩
                · simp [countPush, countPop, List.countP_cons] at hmod ⊢
                  omega
                · simp [countPush, countPop, List.countP_cons] at hle ⊢
                  omega
        · rw [if_neg hd1] at h
          by_cases hd2 : tvbd.copy = true
          · rw [if_pos hd2] at h
            by_cases hc : tcont = true
            · rw [if_pos hc] at h
              obtain ⟨Δ, hk, hmod, hle⟩ :=
                ih st' depth (str ++ bytes) k stF kF hTS' hd h
              exact ⟨Δ, hk, hmod, by omega⟩
            · rw [if_neg hc] at h
              by_cases hch : tvbd.chainMustBeUtf8 = true
              · rw [if_pos hch] at h
                dsimp only at h
                simp only [ne_eq, eq_self_iff_true, not_true, false_or] at h
                by_cases hz : depth = 0
                · rw [if_pos hz] at h
                  cases h
                  refine ⟨[CbEvent.textEv (str ++ bytes)], rfl, ?_, ?_⟩
                  · simp [countPush, countPop, hz]
                  · simp [countPush, countPop]
                · rw [if_neg hz] at h
                  obtain ⟨Δ, hk, hmod, hle⟩ :=
                    ih st' depth [] (k ++ [CbEvent.textEv (str ++ bytes)])
                      stF kF hTS' hd h
                  refine ⟨CbEvent.textEv (str ++ bytes) :: Δ,
                    by simpa using hk, ?_, ?_⟩
                  · simp [countPush, countPop, List.countP_cons]
                      at hmod ⊢
                    omega
                  · simp [countPush, countPop, List.countP_cons]
                      at hle ⊢
                    omega
              · rw [if_neg hch] at h
                dsimp only at h
                simp only [ne_eq, eq_self_iff_true, not_true, false_or] at h
                by_cases hz : depth = 0
                · rw [if_pos hz] at h
                  cases h
                  refine ⟨[CbEvent.byteEv (str ++ bytes)], rfl, ?_, ?_⟩
                  · simp [countPush, countPop, hz]
                  · simp [countPush, countPop]
                · rw [if_neg hz] at h
                  obtain ⟨Δ, hk, hmod, hle⟩ :=
                    ih st' depth [] (k ++ [CbEvent.byteEv (str ++ bytes)])
                      stF kF hTS' hd h
                  refine ⟨CbEvent.byteEv (str ++ bytes) :: Δ,
                    by simpa using hk, ?_, ?_⟩
                  · simp [countPush, countPop, List.countP_cons]
                      at hmod ⊢
                    omega
                  · simp [countPush, countPop, List.countP_cons]
                      at hle ⊢
                    omega
          · rw [if_neg hd2] at h
            by_cases hd3 : tvbd.backslashX = true
            · rw [if_pos hd3] at h
              by_cases hbe : (decodeBackslashX ext str bytes).1 ≠ ""
              · rw [if_pos hbe] at h
                simp only [Option.some.injEq, Prod.mk.injEq] at h
                exact absurd h.1 hbe
              · rw [if_neg hbe] at h
                by_cases hc : tcont = true
                · rw [if_pos hc] at h
                  obtain ⟨Δ, hk, hmod, hle⟩ :=
                    ih st' depth (decodeBackslashX ext str bytes).2 k stF kF
                      hTS' hd h
                  exact ⟨Δ, hk, hmod, by omega⟩
                · rw [if_neg hc] at h
                  by_cases hch : tvbd.chainMustBeUtf8 = true
                  · rw [if_pos hch] at h
                    dsimp only at h
                    simp only [ne_eq, eq_self_iff_true, not_true,
                      false_or] at h
                    by_cases hz : depth = 0
                    · rw [if_pos hz] at h
                      cases h
                      refine ⟨[CbEvent.textEv
                        (decodeBackslashX ext str bytes).2], rfl, ?_, ?_⟩
                      · simp [countPush, countPop, hz]
                      · simp [countPush, countPop]
                    · rw [if_neg hz] at h
                      obtain ⟨Δ, hk, hmod, hle⟩ :=
                        ih st' depth []
                          (k ++ [CbEvent.textEv
                            (decodeBackslashX ext str bytes).2]) stF kF hTS'
                          hd h
                      refine ⟨CbEvent.textEv
                        (decodeBackslashX ext str bytes).2 :: Δ,
                        by simpa using hk, ?_, ?_⟩
                      · simp [countPush, countPop, List.countP_cons]
                          at hmod ⊢
                        omega
                      · simp [countPush, countPop, List.countP_cons]
                          at hle ⊢
                        omega
                  · rw [if_neg hch] at h
                    dsimp only at h
                    simp only [ne_eq, eq_self_iff_true, not_true,
                      false_or] at h
                    by_cases hz : depth = 0
                    · rw [if_pos hz] at h
                      cases h
                      refine ⟨[CbEvent.byteEv
                        (decodeBackslashX ext str bytes).2], rfl, ?_, ?_⟩
                      · simp [countPush, countPop, hz]
                      · simp [countPush, countPop]
                    · rw [if_neg hz] at h
                      obtain ⟨Δ, hk, hmod, hle⟩ :=
                        ih st' depth []
                          (k ++ [CbEvent.byteEv
                            (decodeBackslashX ext str bytes).2]) stF kF hTS'
                          hd h
                      refine ⟨CbEvent.byteEv
                        (decodeBackslashX ext str bytes).2 :: Δ,
                        by simpa using hk, ?_, ?_⟩
                      · simp [countPush, countPop, List.countP_cons]
                          at hmod ⊢
                        omega
                      · simp [countPush, countPop, List.countP_cons]
                          at hle ⊢
                        omega
            · rw [if_neg hd3] at h
              simp only [Option.some.injEq, Prod.mk.injEq] at h
              exact absurd h.1 (by decide)
      | unicodeCodePoint =>
        dsimp only at h
        by_cases hc : tcont = true
        · rw [if_pos hc] at h
          obtain ⟨Δ, hk, hmod, hle⟩ :=
            ih st' depth (str ++ ext.utf8Encode tvbd.ucp) k stF kF hTS' hd h
          exact ⟨Δ, hk, hmod, by omega⟩
        · rw [if_neg hc] at h
          simp only [Option.some.injEq, Prod.mk.injEq] at h
          exact absurd h.1 (by decide)
      | literal =>
        simp only [recordingCbs] at h
        by_cases hn : tvbd.litNull = true
        · rw [if_pos hn] at h
          dsimp only at h
          simp only [ne_eq, eq_self_iff_true, not_true, false_or] at h
          by_cases hz : depth = 0
          · rw [if_pos hz] at h
            cases h
            refine ⟨[CbEvent.nullEv], rfl, ?_, ?_⟩
            · simp [countPush, countPop, hz]
            · simp [countPush, countPop]
          · rw [if_neg hz] at h
            obtain ⟨Δ, hk, hmod, hle⟩ :=
              ih st' depth str (k ++ [CbEvent.nullEv]) stF kF hTS' hd h
            refine ⟨CbEvent.nullEv :: Δ, by simpa using hk, ?_, ?_⟩
            · simp [countPush, countPop, List.countP_cons] at hmod ⊢
              omega
            · simp [countPush, countPop, List.countP_cons] at hle ⊢
              omega
        · rw [if_neg hn] at h
          dsimp only at h
          simp only [ne_eq, eq_self_iff_true, not_true, false_or] at h
          by_cases hz : depth = 0
          · rw [if_pos hz] at h
            cases h
            refine ⟨[CbEvent.boolEv tvbd.litTrue], rfl, ?_, ?_⟩
            · simp [countPush, countPop, hz]
            · simp [countPush, countPop]
          · rw [if_neg hz] at h
            obtain ⟨Δ, hk, hmod, hle⟩ :=
              ih st' depth str (k ++ [CbEvent.boolEv tvbd.litTrue]) stF kF
                hTS' hd h
            refine ⟨CbEvent.boolEv tvbd.litTrue :: Δ, by simpa using hk,
              ?_, ?_⟩
            · simp [countPush, countPop, List.countP_cons] at hmod ⊢
              omega
            · simp [countPush, countPop, List.countP_cons] at hle ⊢
              omega
      | number =>
        simp only [recordingCbs] at h
        by_cases hft : tvbd.formatText = true
        · rw [if_pos hft] at h
          cases hpi : (if tvbd.contentIntegerSigned = true
              then ext.parse_number_i64 bytes else none) with
          | some v =>
            rw [hpi] at h
            dsimp only at h
            simp only [ne_eq, eq_self_iff_true, not_true, false_or] at h
            by_cases hz : depth = 0
            · rw [if_pos hz] at h
              cases h
              refine ⟨[CbEvent.i64Ev v], rfl, ?_, ?_⟩
              · simp [countPush, countPop, hz]
              · simp [countPush, countPop]
            · rw [if_neg hz] at h
              obtain ⟨Δ, hk, hmod, hle⟩ :=
                ih st' depth str (k ++ [CbEvent.i64Ev v]) stF kF hTS' hd h
              refine ⟨CbEvent.i64Ev v :: Δ, by simpa using hk, ?_, ?_⟩
              · simp [countPush, countPop, List.countP_cons] at hmod ⊢
                omega
              · simp [countPush, countPop, List.countP_cons] at hle ⊢
                omega
          | none =>
            rw [hpi] at h
            cases hpf : (if tvbd.contentFloatingPoint = true
                then ext.parse_number_f64 bytes else none) with
            | some v =>
              rw [hpf] at h
              dsimp only at h
              simp only [ne_eq, eq_self_iff_true, not_true, false_or] at h
              by_cases hz : depth = 0
              · rw [if_pos hz] at h
                cases h
                refine ⟨[CbEvent.f64Ev v], rfl, ?_, ?_⟩
                · simp [countPush, countPop, hz]
                · simp [countPush, countPop]
              · rw [if_neg hz] at h
                obtain ⟨Δ, hk, hmod, hle⟩ :=
                  ih st' depth str (k ++ [CbEvent.f64Ev v]) stF kF hTS' hd h
                refine ⟨CbEvent.f64Ev v :: Δ, by simpa using hk, ?_, ?_⟩
                · simp [countPush, countPop, List.countP_cons] at hmod ⊢
                  omega
                · simp [countPush, countPop, List.countP_cons] at hle ⊢
                  omega
            | none =>
              rw [hpf] at h
              simp only [Option.some.injEq, Prod.mk.injEq] at h
              exact absurd h.1 (by decide)
        · rw [if_neg hft] at h
          by_cases h1 : tvbd.contentNegInf = true
          · rw [if_pos h1] at h
            simp only [ne_eq, eq_self_iff_true, not_true, false_or] at h
            by_cases hz : depth = 0
            · rw [if_pos hz] at h
              cases h
              refine ⟨[CbEvent.f64Ev negInfBits], rfl, ?_, ?_⟩
              · simp [countPush, countPop, hz]
              · simp [countPush, countPop]
            · rw [if_neg hz] at h
              obtain ⟨Δ, hk, hmod, hle⟩ :=
                ih st' depth str (k ++ [CbEvent.f64Ev negInfBits]) stF kF
                  hTS' hd h
              refine ⟨CbEvent.f64Ev negInfBits :: Δ, by simpa using hk,
                ?_, ?_⟩
              · simp [countPush, countPop, List.countP_cons] at hmod ⊢
                omega
              · simp [countPush, countPop, List.countP_cons] at hle ⊢
                omega
          · rw [if_neg h1] at h
            by_cases h2 : tvbd.contentPosInf = true
            · rw [if_pos h2] at h
              simp only [ne_eq, eq_self_iff_true, not_true, false_or] at h
              by_cases hz : depth = 0
              · rw [if_pos hz] at h
                cases h
                refine ⟨[CbEvent.f64Ev posInfBits], rfl, ?_, ?_⟩
                · simp [countPush, countPop, hz]
                · simp [countPush, countPop]
              · rw [if_neg hz] at h
                obtain ⟨Δ, hk, hmod, hle⟩ :=
                  ih st' depth str (k ++ [CbEvent.f64Ev posInfBits]) stF kF
                    hTS' hd h
                refine ⟨CbEvent.f64Ev posInfBits :: Δ, by simpa using hk,
                  ?_, ?_⟩
                · simp [countPush, countPop, List.countP_cons] at hmod ⊢
                  omega
                · simp [countPush, countPop, List.countP_cons] at hle ⊢
                  omega
            · rw [if_neg h2] at h
              by_cases h3 : tvbd.contentNegNan = true
              · rw [if_pos h3] at h
                simp only [ne_eq, eq_self_iff_true, not_true, false_or] at h
                by_cases hz : depth = 0
                · rw [if_pos hz] at h
                  cases h
                  refine ⟨[CbEvent.f64Ev negNanBits], rfl, ?_, ?_⟩
                  · simp [countPush, countPop, hz]
                  · simp [countPush, countPop]
                · rw [if_neg hz] at h
                  obtain ⟨Δ, hk, hmod, hle⟩ :=
                    ih st' depth str (k ++ [CbEvent.f64Ev negNanBits]) stF
                      kF hTS' hd h
                  refine ⟨CbEvent.f64Ev negNanBits :: Δ, by simpa using hk,
                    ?_, ?_⟩
                  · simp [countPush, countPop, List.countP_cons]
                      at hmod ⊢
                    omega
                  · simp [countPush, countPop, List.countP_cons]
                      at hle ⊢
                    omega
              · rw [if_neg h3] at h
                by_cases h4 : tvbd.contentPosNan = true
                · rw [if_pos h4] at h
                  simp only [ne_eq, eq_self_iff_true, not_true,
                    false_or] at h
                  by_cases hz : depth = 0
                  · rw [if_pos hz] at h
                    cases h
                    refine ⟨[CbEvent.f64Ev posNanBits], rfl, ?_, ?_⟩
                    · simp [countPush, countPop, hz]
                    · simp [countPush, countPop]
                  · rw [if_neg hz] at h
                    obtain ⟨Δ, hk, hmod, hle⟩ :=
                      ih st' depth str (k ++ [CbEvent.f64Ev posNanBits]) stF
                        kF hTS' hd h
                    refine ⟨CbEvent.f64Ev posNanBits :: Δ,
                      by simpa using hk, ?_, ?_⟩
                    · simp [countPush, countPop, List.countP_cons]
                        at hmod ⊢
                      omega
                    · simp [countPush, countPop, List.countP_cons]
                        at hle ⊢
                      omega
                · rw [if_neg h4] at h
                  simp only [Option.some.injEq, Prod.mk.injEq] at h
                  exact absurd h.1 (by decide)

/-- The witness decoder oracle never reports an empty-message terminal
error. -/
theorem scriptOracle_no_empty_err :
    ∀ (d : List Token) (tb : TokenBuffer) (ib : IOBuffer),
      (scriptOracle.decodeTokens d tb ib).2.1 ≠ Stat.err "" := by
  intro d tb ib
  cases d with
  | nil => simp [scriptOracle]
  | cons t rest =>
    simp only [scriptOracle]
    split
    · simp
    · simp

/-- C8: main-loop depth bookkeeping and termination.  `depth` is incremented
only after a `Push` callback returns success (a failing `Push` terminates
before the increment) and decremented on each `Pop`; after a completed value
(here: `Pop` and `Literal`; C2 and C6 exhibit the same `parsed_a_value`
check for strings and numbers) the loop terminates iff the callback returned
a non-empty error or `depth` reached 0.  Consequently a decode with
callbacks that never error (the recording callbacks) that returns
successfully from depth 0 has exactly balanced Push and Pop invocations
(fuel below `2^32` rules out `uint32_t` wraparound of `depth`). -/
theorem c8_termination_balance :
    (∀ (σ ι κ : Type) (or : Oracles σ ι) (gf : Nat) (ext : Externals)
        (cbs : Callbacks κ) (fuel : Nat) (st : DriverState σ ι) (depth : Nat)
        (str : List Nat) (k : κ) (t : Token) (len : Nat) (bytes : List Nat)
        (st' : DriverState σ ι),
        getNextToken or gf st = GetTok.tok t len bytes st' →
        t.vbc = VBC.structure_ →
        ((t.vbd.push = true → (cbs.push t.vbd k).1 = "" →
            mainLoop or gf ext cbs (fuel + 1) st depth str k =
              mainLoop or gf ext cbs fuel st' (u32inc depth) str
                (cbs.push t.vbd k).2) ∧
         (t.vbd.push = true → (cbs.push t.vbd k).1 ≠ "" →
            mainLoop or gf ext cbs (fuel + 1) st depth str k =
              some ((cbs.push t.vbd k).1, st', (cbs.push t.vbd k).2)) ∧
         (t.vbd.push = false →
            mainLoop or gf ext cbs (fuel + 1) st depth str k =
              (let r := cbs.pop t.vbd k
               if r.1 ≠ "" ∨ u32dec depth = 0 then some (r.1, st', r.2)
               else mainLoop or gf ext cbs fuel st' (u32dec depth) str r.2)))) ∧
    (∀ (σ ι κ : Type) (or : Oracles σ ι) (gf : Nat) (ext : Externals)
        (cbs : Callbacks κ) (fuel : Nat) (st : DriverState σ ι) (depth : Nat)
        (str : List Nat) (k : κ) (t : Token) (len : Nat) (bytes : List Nat)
        (st' : DriverState σ ι),
        getNextToken or gf st = GetTok.tok t len bytes st' →
        t.vbc = VBC.literal →
        mainLoop or gf ext cbs (fuel + 1) st depth str k =
          (let r := if t.vbd.litNull = true then cbs.appendNull k
             else cbs.appendBool t.vbd.litTrue k
           if r.1 ≠ "" ∨ depth = 0 then some (r.1, st', r.2)
           else mainLoop or gf ext cbs fuel st' depth str r.2)) ∧
    (∀ (σ ι : Type) (or : Oracles σ ι) (gf : Nat) (ext : Externals)
        (fuel : Nat) (st : DriverState σ ι) (str : List Nat)
        (k : List CbEvent) (stF : DriverState σ ι) (kF : List CbEvent),
        (∀ d tb ib, (or.decodeTokens d tb ib).2.1 ≠ Stat.err "") →
        st.tokStatus ≠ Stat.err "" → fuel < 2 ^ 32 →
        mainLoop or gf ext recordingCbs fuel st 0 str k =
          some ("", stF, kF) →
        ∃ Δ, kF = k ++ Δ ∧ countPush Δ = countPop Δ) := by
  refine ⟨?_, ?_, ?_⟩
  · intro σ ι κ or gf ext cbs fuel st depth str k t len bytes st' hget hvbc
    obtain ⟨tlen, tvbc, tvbd, tcont⟩ := t
    simp only at hvbc
    subst hvbc
    refine ⟨?_, ?_, ?_⟩
    · intro hpush hok
      simp only at hpush
      simp only [mainLoop, hget, hpush]
      simp [hok]
    · intro hpush hne
      simp only at hpush
      simp only [mainLoop, hget, hpush]
      simp [hne]
    · intro hpush
      simp only at hpush
      simp only [mainLoop, hget, hpush]
      simp
  · intro σ ι κ or gf ext cbs fuel st depth str k t len bytes st' hget hvbc
    obtain ⟨tlen, tvbc, tvbd, tcont⟩ := t
    simp only at hvbc
    subst hvbc
    simp only [mainLoop, hget]
  · intro σ ι or gf ext fuel st str k stF kF hE hTS hfl h
    obtain ⟨Δ, hk, hmod, hle⟩ :=
      mainLoop_recording_balance or gf ext hE fuel st 0 str k stF kF hTS
        (by norm_num) h
    refine ⟨Δ, hk, ?_⟩
    omega

/-- The `Structure` `PUSH` token of the C8 witness. -/
def c8PushTok : Token := ⟨1, VBC.structure_, { push := true, toList := true }, false⟩

/-- The `Structure` `POP` token of the C8 witness. -/
def c8PopTok : Token := ⟨1, VBC.structure_, { pop := true }, false⟩

/-- Main-loop state of the C8 witness: one push and one pop token. -/
def c8WitSt : DriverState (List Token) Unit :=
  mkWitState [c8PushTok, c8PopTok] [91, 93] 2 0

/-- Final state of the C8 witness run. -/
def c8WitStF : DriverState (List Token) Unit :=
  { tokBuf := ⟨[c8PushTok, c8PopTok], ⟨2, 2⟩⟩, tokStatus := Stat.ok,
    ioBuf := ⟨[91, 93], ⟨2, 2, 0, false⟩⟩, ioErrorMessage := "",
    cursorIndex := 2, decSt := [], inSt := () }

/-- Witness for C8 at a concrete input: decoding `[]` (one push, one pop)
with the recording callbacks terminates the first time depth returns to 0,
with balanced Push and Pop events. -/
theorem c8_termination_balance_witness :
    ∃ Δ, ([CbEvent.pushEv { push := true, toList := true },
           CbEvent.popEv { pop := true }] : List CbEvent) = [] ++ Δ ∧
      countPush Δ = countPop Δ :=
  c8_termination_balance.2.2 (List Token) Unit scriptOracle 1 simpleExt 2
    c8WitSt [] [] c8WitStF
    [CbEvent.pushEv { push := true, toList := true },
     CbEvent.popEv { pop := true }]
    scriptOracle_no_empty_err (by decide) (by norm_num) (by decide)

/-- Lift callbacks to thread a counter of `Done` invocations: every callback
other than `Done` preserves the counter; `Done` increments it. -/
def countingDone {κ : Type} (cbs : Callbacks κ) : Callbacks (κ × Nat) :=
  { push := fun v p => ((cbs.push v p.1).1, ((cbs.push v p.1).2, p.2)),
    pop := fun v p => ((cbs.pop v p.1).1, ((cbs.pop v p.1).2, p.2)),
    appendNull := fun p =>
      ((cbs.appendNull p.1).1, ((cbs.appendNull p.1).2, p.2)),
    appendBool := fun b p =>
      ((cbs.appendBool b p.1).1, ((cbs.appendBool b p.1).2, p.2)),
    appendI64 := fun v p =>
      ((cbs.appendI64 v p.1).1, ((cbs.appendI64 v p.1).2, p.2)),
    appendF64 := fun v p =>
      ((cbs.appendF64 v p.1).1, ((cbs.appendF64 v p.1).2, p.2)),
    appendTextString := fun s p =>
      ((cbs.appendTextString s p.1).1, ((cbs.appendTextString s p.1).2, p.2)),
    appendByteString := fun s p =>
      ((cbs.appendByteString s p.1).1, ((cbs.appendByteString s p.1).2, p.2)),
    done := fun r p =>
      ((cbs.done r p.1).1, ((cbs.done r p.1).2, p.2 + 1)) }

/-- The main loop never invokes `Done`: it preserves the `Done` counter. -/
theorem mainLoop_counting_preserves {σ ι κ : Type} (or : Oracles σ ι)
    (gf : Nat) (ext : Externals) (cbs : Callbacks κ) :
    ∀ (fuel : Nat) (st : DriverState σ ι) (depth : Nat) (str : List Nat)
      (k : κ) (n : Nat) (msg : String) (stF : DriverState σ ι)
      (kF : κ × Nat),
      mainLoop or gf ext (countingDone cbs) fuel st depth str (k, n) =
        some (msg, stF, kF) →
      kF.2 = n := by
  intro fuel
  induction fuel with
  | zero =>
    intro st depth str k n msg stF kF h
    simp only [mainLoop] at h
    cases h
  | succ m ih =>
    intro st depth str k n msg stF kF h
    cases hg : getNextToken or gf st with
    | fuelOut =>
      rw [mainLoop, hg] at h
      cases h
    | err msg2 st' =>
      rw [mainLoop, hg] at h
      cases h
      rfl
    | tok t len bytes st' =>
      obtain ⟨tlen, tvbc, tvbd, tcont⟩ := t
      cases tvbc <;>
        (simp only [mainLoop, hg, countingDone] at h
         repeat' split at h) <;>
        first
          | (exact ih _ _ _ _ _ _ _ _ h)
          | (cases h; rfl)

/-- The pointer-walk phase and the main loop together preserve the `Done`
counter (the walker has no access to the callbacks at all). -/
theorem afterAlloc_counting_preserves {σ ι κ : Type} (or : Oracles σ ι)
    (gf : Nat) (ext : Externals) (cbs : Callbacks κ) (jp : List Nat)
    (fuel : Nat) (st0 : DriverState σ ι) (k0 : κ) (n0 : Nat) (msg : String)
    (stF : DriverState σ ι) (kM : κ × Nat)
    (h : decodeJsonAfterAlloc or gf ext (countingDone cbs) jp fuel st0
        (k0, n0) = some (msg, stF, kM)) :
    kM.2 = n0 := by
  unfold decodeJsonAfterAlloc at h
  revert h
  cases hp : pointerPhase
      (fun frag st => match walkFragmentLoop or gf ext frag fuel st with
        | WalkRes.fuelOut => none
        | WalkRes.res m s => some (m, s))
      fuel jp 0 st0 with
  | none => intro h; cases h
  | some pair =>
    obtain ⟨pm, st1⟩ := pair
    intro h
    dsimp only at h
    split at h
    · cases h
      rfl
    · exact mainLoop_counting_preserves or gf ext cbs fuel st1 0 [] k0 n0
        msg stF kM h

/-- C9: `callbacks.Done` is invoked exactly once on every terminating
execution of `DecodeJson` — after the result is assembled and before the
function returns — on success and on every error path (out-of-memory at
decoder allocation included, since the statement quantifies over
`allocDec`): with a `Done`-counting wrapper around arbitrary callbacks, the
final counter is always the initial counter plus one. -/
theorem c9_done_exactly_once :
    ∀ (σ ι κ : Type) (or : Oracles σ ι) (ext : Externals) (cbs : Callbacks κ)
      (bringsOwn : Option IOBuffer) (inSt0 : ι) (k0 : κ) (n0 : Nat)
      (allocDec : Option σ) (jp : List Nat) (gf fuel : Nat)
      (res : DecodeJsonResult) (kF : κ × Nat),
      decodeJson or ext (countingDone cbs) bringsOwn inSt0 (k0, n0) allocDec
        jp gf fuel = some (res, kF) →
      kF.2 = n0 + 1 := by
  intro σ ι κ or ext cbs bringsOwn inSt0 k0 n0 allocDec jp gf fuel res kF h
  cases allocDec with
  | none =>
    simp only [decodeJson, countingDone] at h
    cases h
    rfl
  | some d0 =>
    simp only [decodeJson] at h
    revert h
    cases hA : decodeJsonAfterAlloc or gf ext (countingDone cbs) jp fuel
        (initDriverState (chosenIoBuf bringsOwn) d0 inSt0) (k0, n0) with
    | none => intro h; cases h
    | some trip =>
      obtain ⟨msg, stF, kM⟩ := trip
      intro h
      have hn : kM.2 = n0 :=
        afterAlloc_counting_preserves or gf ext cbs jp fuel _ k0 n0 msg stF
          kM hA
      simp only [countingDone] at h
      cases h
      simp [hn]

/-- Witness for C9 at a concrete input: the out-of-memory path (decoder
allocation fails) still invokes `Done` exactly once. -/
theorem c9_done_exactly_once_witness :
    (([CbEvent.doneEv ⟨errOutOfMemory, 0⟩], 1) : List CbEvent × Nat).2 =
      0 + 1 :=
  c9_done_exactly_once (List Token) Unit (List CbEvent) scriptOracle
    simpleExt recordingCbs (some ⟨[], ⟨0, 0, 0, false⟩⟩) () [] 0 none [] 1 1
    ⟨errOutOfMemory, 0⟩ ([CbEvent.doneEv ⟨errOutOfMemory, 0⟩], 1) (by decide)

/-- C10: the `DecodeJsonResult` passed to `callbacks.Done` is the very value
`DecodeJson` returns: the returned pair is exactly `Done` applied to the
result assembled at the `done:` label, so any mutation `Done` performs is
visible to the caller; and with a no-op `Done` (the default), the returned
result is exactly the assembled one. -/
theorem c10_done_result_identity :
    (∀ (σ ι κ : Type) (or : Oracles σ ι) (ext : Externals) (cbs : Callbacks κ)
        (bringsOwn : Option IOBuffer) (inSt0 : ι) (k0 : κ) (d0 : σ)
        (jp : List Nat) (gf fuel : Nat) (msg : String)
        (stF : DriverState σ ι) (kF : κ),
        decodeJsonAfterAlloc or gf ext cbs jp fuel
          (initDriverState (chosenIoBuf bringsOwn) d0 inSt0) k0 =
          some (msg, stF, kF) →
        decodeJson or ext cbs bringsOwn inSt0 k0 (some d0) jp gf fuel =
          some (cbs.done (mkResult msg stF) kF)) ∧
    (∀ (σ ι κ : Type) (or : Oracles σ ι) (ext : Externals) (cbs : Callbacks κ)
        (bringsOwn : Option IOBuffer) (inSt0 : ι) (k0 : κ) (d0 : σ)
        (jp : List Nat) (gf fuel : Nat) (msg : String)
        (stF : DriverState σ ι) (kF : κ),
        (∀ r k, cbs.done r k = defaultDone r k) →
        decodeJsonAfterAlloc or gf ext cbs jp fuel
          (initDriverState (chosenIoBuf bringsOwn) d0 inSt0) k0 =
          some (msg, stF, kF) →
        decodeJson or ext cbs bringsOwn inSt0 k0 (some d0) jp gf fuel =
          some (mkResult msg stF, kF)) := by
  constructor
  · intro σ ι κ or ext cbs bringsOwn inSt0 k0 d0 jp gf fuel msg stF kF h
    simp only [decodeJson]
    rw [h]
  · intro σ ι κ or ext cbs bringsOwn inSt0 k0 d0 jp gf fuel msg stF kF hd h
    simp only [decodeJson]
    rw [h]
    dsimp only
    rw [hd]
    rfl

/-- The literal `null` token of the C10 witness. -/
def c10LitTok : Token := ⟨1, VBC.literal, { litNull := true }, false⟩

/-- The io buffer of the C10 witness (one `n` byte already written). -/
def c10Buf : IOBuffer := ⟨[110], ⟨1, 0, 0, false⟩⟩

/-- The final driver state of the C10 witness run. -/
def c10StF : DriverState (List Token) Unit :=
  { tokBuf := ⟨initTokBuf.data.set 0 c10LitTok, ⟨1, 1⟩⟩,
    tokStatus := Stat.ok, ioBuf := ⟨[110], ⟨1, 1, 0, false⟩⟩,
    ioErrorMessage := "", cursorIndex := 1, decSt := [], inSt := () }

set_option maxRecDepth 40000 in
/-- Witness for C10 at a concrete input: decoding `null` with the recording
callbacks returns exactly `Done`'s output on the assembled result (here
`Done` records an event, and the assembled result is visible unmodified). -/
theorem c10_done_result_identity_witness :
    decodeJson scriptOracle simpleExt recordingCbs (some c10Buf) () []
        (some [c10LitTok]) [] 2 2 =
      some (⟨"", 1⟩, [CbEvent.nullEv, CbEvent.doneEv ⟨"", 1⟩]) := by
  have h := c10_done_result_identity.1 (List Token) Unit (List CbEvent)
    scriptOracle simpleExt recordingCbs (some c10Buf) () [] [c10LitTok] [] 2 2
    "" c10StF [CbEvent.nullEv] (by decide)
  rw [h]
  decide

/-- Unfolding: the empty suffix scans to an empty fragment. -/
theorem specSplit_nil : specSplitFragment [] = some ([], 0) := by
  rw [specSplitFragment.eq_def]

/-- Unfolding: a leading `/` stops the scan immediately. -/
theorem specSplit_slash (rest : List Nat) :
    specSplitFragment (47 :: rest) = some ([], 0) := by
  rw [specSplitFragment.eq_def]
  simp

/-- Unfolding: a lone trailing `~` is a syntax error. -/
theorem specSplit_tilde_nil : specSplitFragment [126] = none := by
  rw [specSplitFragment.eq_def]
  simp

/-- Unfolding: `~0` decodes to `~`. -/
theorem specSplit_tilde0 (rest2 : List Nat) :
    specSplitFragment (126 :: 48 :: rest2) =
      (specSplitFragment rest2).map (fun p => (126 :: p.1, p.2 + 2)) := by
  rw [specSplitFragment.eq_def]
  simp

/-- Unfolding: `~1` decodes to `/`. -/
theorem specSplit_tilde1 (rest2 : List Nat) :
    specSplitFragment (126 :: 49 :: rest2) =
      (specSplitFragment rest2).map (fun p => (47 :: p.1, p.2 + 2)) := by
  rw [specSplitFragment.eq_def]
  simp

/-- Unfolding: `~` followed by anything other than `0`/`1` is a syntax
error. -/
theorem specSplit_tilde_bad (d : Nat) (rest2 : List Nat) (hd1 : ¬d = 48)
    (hd2 : ¬d = 49) : specSplitFragment (126 :: d :: rest2) = none := by
  rw [specSplitFragment.eq_def]
  simp [hd1, hd2]

/-- Unfolding: an ordinary byte is copied into the fragment. -/
theorem specSplit_other (d : Nat) (rest2 : List Nat) (hd1 : ¬d = 47)
    (hd2 : ¬d = 126) :
    specSplitFragment (d :: rest2) =
      (specSplitFragment rest2).map (fun p => (d :: p.1, p.2 + 1)) := by
  rw [specSplitFragment.eq_def]
  simp [hd1, hd2]

/-- Unfolding: the empty string has no bad tilde. -/
theorem hasBadTilde_nil : hasBadTilde [] = false := by
  rw [hasBadTilde.eq_def]

/-- Unfolding: a lone trailing `~` is bad. -/
theorem hasBadTilde_tilde_nil : hasBadTilde [126] = true := by
  rw [hasBadTilde.eq_def]
  simp

/-- Unfolding: a `~` followed by another byte is bad iff that byte is not
`0`/`1` or the rest is bad. -/
theorem hasBadTilde_tilde_cons (d : Nat) (rest : List Nat) :
    hasBadTilde (126 :: d :: rest) =
      ((if d ≠ 48 ∧ d ≠ 49 then true else false) || hasBadTilde (d :: rest)) := by
  rw [hasBadTilde.eq_def]
  simp

/-- Unfolding: a non-`~` byte does not affect bad-tilde-ness. -/
theorem hasBadTilde_other (c : Nat) (rest : List Nat) (hc : ¬c = 126) :
    hasBadTilde (c :: rest) = hasBadTilde rest := by
  rw [hasBadTilde.eq_def]
  simp [hc]

/-- The consumed count reported by the spec-side fragment scan stops at the
end of the input or at a `/`. -/
theorem specSplitFragment_bounds :
    ∀ (l : List Nat) (f : List Nat) (n : Nat),
      specSplitFragment l = some (f, n) →
      n ≤ l.length ∧ (n = l.length ∨ l.getD n 0 = 47) := by
  intro l
  induction l using specSplitFragment.induct with
  | case1 =>
    intro f n h
    rw [specSplit_nil] at h
    cases h
    simp
  | case2 rest2 =>
    intro f n h
    rw [specSplit_slash] at h
    cases h
    simp
  | case3 hc =>
    intro f n h
    rw [specSplit_tilde_nil] at h
    cases h
  | case4 rest2 hc ih =>
    intro f n h
    rw [specSplit_tilde0] at h
    revert h
    cases hs : specSplitFragment rest2 with
    | none => intro h; cases h
    | some p =>
      obtain ⟨f2, n2⟩ := p
      intro h
      simp only [Option.map_some'] at h
      cases h
      obtain ⟨h1, h2⟩ := ih f2 n2 hs
      refine ⟨by simp; omega, ?_⟩
      rcases h2 with h2 | h2
      · left
        simp [h2]
      · right
        simpa using h2
  | case5 rest2 hc hne ih =>
    intro f n h
    rw [specSplit_tilde1] at h
    revert h
    cases hs : specSplitFragment rest2 with
    | none => intro h; cases h
    | some p =>
      obtain ⟨f2, n2⟩ := p
      intro h
      simp only [Option.map_some'] at h
      cases h
      obtain ⟨h1, h2⟩ := ih f2 n2 hs
      refine ⟨by simp; omega, ?_⟩
      rcases h2 with h2 | h2
      · left
        simp [h2]
      · right
        simpa using h2
  | case6 d rest2 hd1 hd2 hc =>
    intro f n h
    rw [specSplit_tilde_bad d rest2 hd1 hd2] at h
    cases h
  | case7 d rest2 hd1 hd2 ih =>
    intro f n h
    rw [specSplit_other d rest2 hd1 hd2] at h
    revert h
    cases hs : specSplitFragment rest2 with
    | none => intro h; cases h
    | some p =>
      obtain ⟨f2, n2⟩ := p
      intro h
      simp only [Option.map_some'] at h
      cases h
      obtain ⟨h1, h2⟩ := ih f2 n2 hs
      refine ⟨by simp; omega, ?_⟩
      rcases h2 with h2 | h2
      · left
        simp [h2]
      · right
        simpa using h2

/-- A successful fragment scan encounters no bad tilde: the bad-tilde status
of the whole suffix equals that of the part after the consumed fragment. -/
theorem specSplitFragment_badTilde :
    ∀ (l : List Nat) (f : List Nat) (n : Nat),
      specSplitFragment l = some (f, n) →
      hasBadTilde l = hasBadTilde (l.drop n) := by
  intro l
  induction l using specSplitFragment.induct with
  | case1 =>
    intro f n h
    rw [specSplit_nil] at h
    cases h
    rfl
  | case2 rest2 =>
    intro f n h
    rw [specSplit_slash] at h
    cases h
    rfl
  | case3 hc =>
    intro f n h
    rw [specSplit_tilde_nil] at h
    cases h
  | case4 rest2 hc ih =>
    intro f n h
    rw [specSplit_tilde0] at h
    revert h
    cases hs : specSplitFragment rest2 with
    | none => intro h; cases h
    | some p =>
      obtain ⟨f2, n2⟩ := p
      intro h
      simp only [Option.map_some'] at h
      cases h
      rw [hasBadTilde_tilde_cons, hasBadTilde_other 48 rest2 (by norm_num)]
      simp only [List.drop_succ_cons]
      rw [ih f2 n2 hs]
      simp
  | case5 rest2 hc hne ih =>
    intro f n h
    rw [specSplit_tilde1] at h
    revert h
    cases hs : specSplitFragment rest2 with
    | none => intro h; cases h
    | some p =>
      obtain ⟨f2, n2⟩ := p
      intro h
      simp only [Option.map_some'] at h
      cases h
      rw [hasBadTilde_tilde_cons, hasBadTilde_other 49 rest2 (by norm_num)]
      simp only [List.drop_succ_cons]
      rw [ih f2 n2 hs]
      simp
  | case6 d rest2 hd1 hd2 hc =>
    intro f n h
    rw [specSplit_tilde_bad d rest2 hd1 hd2] at h
    cases h
  | case7 d rest2 hd1 hd2 ih =>
    intro f n h
    rw [specSplit_other d rest2 hd1 hd2] at h
    revert h
    cases hs : specSplitFragment rest2 with
    | none => intro h; cases h
    | some p =>
      obtain ⟨f2, n2⟩ := p
      intro h
      simp only [Option.map_some'] at h
      cases h
      rw [hasBadTilde_other d rest2 hd2]
      simp only [List.drop_succ_cons]
      exact ih f2 n2 hs

/-- A failing fragment scan means the suffix contains a bad tilde. -/
theorem specSplitFragment_none_badTilde :
    ∀ (l : List Nat), specSplitFragment l = none → hasBadTilde l = true := by
  intro l
  induction l using specSplitFragment.induct with
  | case1 => intro h; rw [specSplit_nil] at h; cases h
  | case2 rest2 => intro h; rw [specSplit_slash] at h; cases h
  | case3 hc => intro h; exact hasBadTilde_tilde_nil
  | case4 rest2 hc ih =>
    intro h
    rw [specSplit_tilde0] at h
    rw [hasBadTilde_tilde_cons, hasBadTilde_other 48 rest2 (by norm_num)]
    rw [ih (by revert h; cases hs : specSplitFragment rest2 with
      | none => intro h; rfl
      | some p => intro h; rw [Option.map_some'] at h; cases h)]
    simp
  | case5 rest2 hc hne ih =>
    intro h
    rw [specSplit_tilde1] at h
    rw [hasBadTilde_tilde_cons, hasBadTilde_other 49 rest2 (by norm_num)]
    rw [ih (by revert h; cases hs : specSplitFragment rest2 with
      | none => intro h; rfl
      | some p => intro h; rw [Option.map_some'] at h; cases h)]
    simp
  | case6 d rest2 hd1 hd2 hc =>
    intro h
    rw [hasBadTilde_tilde_cons]
    simp [hd1, hd2]
  | case7 d rest2 hd1 hd2 ih =>
    intro h
    rw [specSplit_other d rest2 hd1 hd2] at h
    rw [hasBadTilde_other d rest2 hd2]
    exact ih (by revert h; cases hs : specSplitFragment rest2 with
      | none => intro h; rfl
      | some p => intro h; rw [Option.map_some'] at h; cases h)

/-- The source scan agrees with the spec-side scan: with fuel at least
`s.length - i` (what `DecodeJson_SplitJsonPointer` supplies), `splitGo`
returns the decoded fragment appended to the accumulator together with the
absolute index of the next unread byte, and `([], 0)` exactly when the
spec-side scan reports a syntax error. -/
theorem splitGo_spec (s : List Nat) :
    ∀ (fuel i : Nat) (frag : List Nat), s.length - i ≤ fuel →
      splitGo s fuel i frag =
        (match specSplitFragment (s.drop i) with
         | none => ([], 0)
         | some p => (frag ++ p.1, i + p.2)) := by
  intro fuel
  induction fuel with
  | zero =>
    intro i frag hf
    have hi : s.length ≤ i := by omega
    rw [List.drop_eq_nil_iff.mpr hi, specSplit_nil]
    simp [splitGo]
  | succ m ih =>
    intro i frag hf
    simp only [splitGo]
    by_cases hlt : i < s.length
    · rw [if_pos hlt]
      have hdrop : s.drop i = s.getD i 0 :: s.drop (i + 1) := by
        rw [List.drop_eq_getElem_cons hlt, List.getD_eq_getElem s 0 hlt]
      by_cases h47 : s.getD i 0 = 47
      · rw [if_pos h47, hdrop, h47, specSplit_slash]
        simp
      · rw [if_neg h47]
        by_cases h126 : s.getD i 0 = 126
        · rw [if_neg (fun hh => hh h126)]
          by_cases hend : s.length ≤ i + 1
          · rw [if_pos hend]
            have hdrop2 : s.drop (i + 1) = [] := List.drop_eq_nil_iff.mpr hend
            rw [hdrop, h126, hdrop2, specSplit_tilde_nil]
          · rw [if_neg hend]
            have hlt2 : i + 1 < s.length := by omega
            have hdrop2 : s.drop (i + 1) = s.getD (i + 1) 0 :: s.drop (i + 2) := by
              rw [List.drop_eq_getElem_cons hlt2, List.getD_eq_getElem s 0 hlt2]
            by_cases h48 : s.getD (i + 1) 0 = 48
            · rw [if_pos h48, hdrop, h126, hdrop2, h48, specSplit_tilde0]
              rw [ih (i + 2) (frag ++ [126]) (by omega)]
              cases hs : specSplitFragment (s.drop (i + 2)) with
              | none => simp
              | some p =>
                simp only [Option.map_some', Prod.mk.injEq]
                constructor
                · simp
                · omega
            · rw [if_neg h48]
              by_cases h49 : s.getD (i + 1) 0 = 49
              · rw [if_pos h49, hdrop, h126, hdrop2, h49, specSplit_tilde1]
                rw [ih (i + 2) (frag ++ [47]) (by omega)]
                cases hs : specSplitFragment (s.drop (i + 2)) with
                | none => simp
                | some p =>
                  simp only [Option.map_some', Prod.mk.injEq]
                  constructor
                  · simp
                  · omega
              · rw [if_neg h49, hdrop, h126, hdrop2,
                  specSplit_tilde_bad (s.getD (i + 1) 0) (s.drop (i + 2))
                    h48 h49]
        · rw [if_pos h126]
          rw [ih (i + 1) (frag ++ [s.getD i 0]) (by omega)]
          rw [hdrop,
            specSplit_other (s.getD i 0) (s.drop (i + 1)) h47 h126]
          cases hs : specSplitFragment (s.drop (i + 1)) with
          | none => simp
          | some p =>
            simp only [Option.map_some', Prod.mk.injEq]
            constructor
            · simp
            · omega
    · rw [if_neg hlt]
      have hi : s.length ≤ i := by omega
      rw [List.drop_eq_nil_iff.mpr hi, specSplit_nil]
      simp

/-- The pointer-walking loop of `DecodeJson`, with a per-fragment walk that
always succeeds, rejects with `BadJsonPointer` exactly when the pointer
suffix from `i` is syntactically bad (does not start with `/`, or some `~`
escape after it is invalid), and otherwise returns success. -/
theorem pointerPhase_bad_iff {α : Type}
    (walk : List Nat → α → Option (String × α))
    (hW : ∀ frag a, ∃ a', walk frag a = some ("", a')) (s : List Nat) :
    ∀ (fuel i : Nat) (a : α), s.length - i < fuel →
      (((∃ a', pointerPhase walk fuel s i a =
          some (DecodeJson_BadJsonPointer, a')) ↔
        (i < s.length ∧
         (s.getD i 0 ≠ 47 ∨ hasBadTilde (s.drop (i + 1)) = true))) ∧
       (¬(i < s.length ∧
          (s.getD i 0 ≠ 47 ∨ hasBadTilde (s.drop (i + 1)) = true)) →
        ∃ a', pointerPhase walk fuel s i a = some ("", a'))) := by
  have hne : DecodeJson_BadJsonPointer ≠ "" := by decide
  intro fuel
  induction fuel with
  | zero => intro i a hf; omega
  | succ m ih =>
    intro i a hf
    by_cases hlt : i < s.length
    · by_cases h47 : s.getD i 0 = 47
      · have hsplit := splitGo_spec s (s.length - (i + 1)) (i + 1) []
          (Nat.le_refl _)
        cases hs : specSplitFragment (s.drop (i + 1)) with
        | none =>
          have hsp : DecodeJson_SplitJsonPointer s (i + 1) = ([], 0) := by
            rw [DecodeJson_SplitJsonPointer, hsplit, hs]
          have hph : pointerPhase walk (m + 1) s i a =
              some (DecodeJson_BadJsonPointer, a) := by
            simp only [pointerPhase]
            rw [if_pos hlt, if_neg (fun hh => hh h47), hsp]
            rfl
          have hbt : hasBadTilde (s.drop (i + 1)) = true :=
            specSplitFragment_none_badTilde _ hs
          refine ⟨⟨fun _ => ⟨hlt, Or.inr hbt⟩, fun _ => ⟨a, hph⟩⟩,
            fun hcon => absurd ⟨hlt, Or.inr hbt⟩ hcon⟩
        | some p =>
          obtain ⟨f, n⟩ := p
          have hsp : DecodeJson_SplitJsonPointer s (i + 1) = (f, i + 1 + n) := by
            rw [DecodeJson_SplitJsonPointer, hsplit, hs]
            simp
          obtain ⟨a2, hwalk⟩ := hW f a
          have hph : pointerPhase walk (m + 1) s i a =
              pointerPhase walk m s (i + 1 + n) a2 := by
            simp only [pointerPhase]
            rw [if_pos hlt, if_neg (fun hh => hh h47), hsp]
            dsimp only
            rw [if_neg (by omega : ¬i + 1 + n = 0), hwalk]
            simp
          obtain ⟨hb1, hb2⟩ := specSplitFragment_bounds _ _ _ hs
          have hlen : (s.drop (i + 1)).length = s.length - (i + 1) := by simp
          have hbt : hasBadTilde (s.drop (i + 1)) =
              hasBadTilde (s.drop (i + 1 + n)) := by
            rw [specSplitFragment_badTilde _ _ _ hs, List.drop_drop]
          rcases hb2 with hb2 | hb2
          · have hi2 : i + 1 + n = s.length := by
              rw [hlen] at hb2
              omega
            have hbf : hasBadTilde (s.drop (i + 1)) = false := by
              rw [hbt, hi2, List.drop_length, hasBadTilde_nil]
            have hfm : s.length - (i + 1 + n) < m := by omega
            obtain ⟨ihiff, ihsec⟩ := ih (i + 1 + n) a2 hfm
            have hnot : ¬(i + 1 + n < s.length ∧
                (s.getD (i + 1 + n) 0 ≠ 47 ∨
                 hasBadTilde (s.drop (i + 1 + n + 1)) = true)) := by
              rintro ⟨hh, _⟩
              omega
            obtain ⟨a3, hph3⟩ := ihsec hnot
            constructor
            · constructor
              · rintro ⟨a', ha⟩
                rw [hph, hph3] at ha
                exact absurd (congrArg Prod.fst (Option.some.inj ha)).symm hne
              · rintro ⟨h1, h2⟩
                rcases h2 with h2 | h2
                · exact absurd h47 h2
                · rw [hbf] at h2
                  cases h2
            · intro hcon
              exact ⟨a3, by rw [hph]; exact hph3⟩
          · have hgd : s.getD (i + 1 + n) 0 = 47 := by
              rw [List.getD_eq_getElem?_getD, ← List.getElem?_drop,
                ← List.getD_eq_getElem?_getD]
              exact hb2
            have hlt2 : i + 1 + n < s.length := by
              by_contra hge
              rw [List.getD_eq_default _ _ (by omega)] at hgd
              cases hgd
            have hfm : s.length - (i + 1 + n) < m := by omega
            obtain ⟨ihiff, ihsec⟩ := ih (i + 1 + n) a2 hfm
            have hdrop2 : s.drop (i + 1 + n) = 47 :: s.drop (i + 1 + n + 1) := by
              rw [List.drop_eq_getElem_cons hlt2]
              rw [← List.getD_eq_getElem s 0 hlt2, hgd]
            have hbt2 : hasBadTilde (s.drop (i + 1)) =
                hasBadTilde (s.drop (i + 1 + n + 1)) := by
              rw [hbt, hdrop2, hasBadTilde_other 47 _ (by norm_num)]
            have hrhs : (i < s.length ∧
                (s.getD i 0 ≠ 47 ∨ hasBadTilde (s.drop (i + 1)) = true)) ↔
                (i + 1 + n < s.length ∧
                 (s.getD (i + 1 + n) 0 ≠ 47 ∨
                  hasBadTilde (s.drop (i + 1 + n + 1)) = true)) := by
              constructor
              · rintro ⟨_, h2⟩
                refine ⟨hlt2, Or.inr ?_⟩
                rcases h2 with h2 | h2
                · exact absurd h47 h2
                · rw [← hbt2]
                  exact h2
              · rintro ⟨_, h2⟩
                refine ⟨hlt, Or.inr ?_⟩
                rcases h2 with h2 | h2
                · exact absurd hgd h2
                · rw [hbt2]
                  exact h2
            constructor
            · have hiff2 : (∃ a', pointerPhase walk (m + 1) s i a =
                  some (DecodeJson_BadJsonPointer, a')) ↔
                  (∃ a', pointerPhase walk m s (i + 1 + n) a2 =
                    some (DecodeJson_BadJsonPointer, a')) := by
                rw [hph]
              exact hiff2.trans (ihiff.trans hrhs.symm)
            · intro hcon
              obtain ⟨a3, h3⟩ := ihsec (fun hh => hcon (hrhs.mpr hh))
              exact ⟨a3, by rw [hph]; exact h3⟩
      · have hph : pointerPhase walk (m + 1) s i a =
            some (DecodeJson_BadJsonPointer, a) := by
          simp only [pointerPhase]
          rw [if_pos hlt, if_pos h47]
        refine ⟨⟨fun _ => ⟨hlt, Or.inl h47⟩, fun _ => ⟨a, hph⟩⟩,
          fun hcon => absurd ⟨hlt, Or.inl h47⟩ hcon⟩
    · have hph : pointerPhase walk (m + 1) s i a = some ("", a) := by
        simp only [pointerPhase]
        rw [if_neg hlt]
      constructor
      · constructor
        · rintro ⟨a', ha⟩
          rw [hph] at ha
          exact absurd (congrArg Prod.fst (Option.some.inj ha)).symm hne
        · rintro ⟨h1, _⟩
          exact absurd h1 hlt
      · intro _
        exact ⟨a, hph⟩

/-- Auxiliary for C7: the full syntactic-badness predicate of the claim,
evaluated on the whole pointer, coincides with the per-position condition of
the walking loop taken at position 0. -/
theorem claimPointerSyntaxBad_iff (s : List Nat) :
    claimPointerSyntaxBad s = true ↔
      (0 < s.length ∧
       (s.getD 0 0 ≠ 47 ∨ hasBadTilde (s.drop (0 + 1)) = true)) := by
  cases s with
  | nil => simp [claimPointerSyntaxBad, hasBadTilde]
  | cons c rest =>
    by_cases h47 : c = 47
    · subst h47
      simp [claimPointerSyntaxBad, hasBadTilde_other 47 rest (by norm_num)]
    · simp [claimPointerSyntaxBad, h47]

/-- C7 (amended): JSON Pointer syntax errors.  Part 1:
`DecodeJson_SplitJsonPointer` refines the spec-side fragment scan
`specSplitFragment`: it returns the fragment decoded with `~0` replaced by
`~` and `~1` replaced by `/` together with the absolute index of the next
unread byte, and `([], 0)` exactly when the spec-side scan reports a syntax
error.  Part 2: a split starting inside the pointer (`1 ≤ i ≤ s.length`)
that succeeds returns a nonzero index pointing at the next `/` or at end of
string.  Part 3: a returned index 0 (for `1 ≤ i`) happens only on the
syntax-error cases: the remaining bytes contain a `~` that is at end of
input or followed by a byte other than `0`/`1`.  Part 4: the pointer-walking
loop of `DecodeJson`, provided every per-fragment walk it performs succeeds,
terminates with the `bad JSON Pointer` sentinel exactly when the pointer is
syntactically bad (it is nonempty and does not begin with `/`, or contains
an invalid `~` escape), and otherwise completes the pointer phase
successfully.  Without that proviso the original "exactly when" fails: an
earlier fragment walk may terminate the call with its own message (e.g.
`no match`) before the syntactically bad part is reached. -/
theorem c7_bad_json_pointer :
    (∀ (s : List Nat) (i : Nat),
        DecodeJson_SplitJsonPointer s i =
          (match specSplitFragment (s.drop i) with
           | none => ([], 0)
           | some p => (p.1, i + p.2))) ∧
    (∀ (s : List Nat) (i : Nat) (f : List Nat) (n : Nat),
        1 ≤ i → i ≤ s.length →
        specSplitFragment (s.drop i) = some (f, n) →
        DecodeJson_SplitJsonPointer s i = (f, i + n) ∧
        i + n ≠ 0 ∧
        (i + n = s.length ∨ s.getD (i + n) 0 = 47)) ∧
    (∀ (s : List Nat) (i : Nat), 1 ≤ i →
        (DecodeJson_SplitJsonPointer s i).2 = 0 →
        hasBadTilde (s.drop i) = true) ∧
    (∀ (α : Type) (walk : List Nat → α → Option (String × α)),
        (∀ frag a, ∃ a', walk frag a = some ("", a')) →
        ∀ (s : List Nat) (fuel : Nat) (a : α), s.length < fuel →
          ((∃ a', pointerPhase walk fuel s 0 a =
              some (DecodeJson_BadJsonPointer, a')) ↔
            claimPointerSyntaxBad s = true) ∧
          (claimPointerSyntaxBad s = false →
            ∃ a', pointerPhase walk fuel s 0 a = some ("", a'))) := by
  have hsp : ∀ (s : List Nat) (i : Nat),
      DecodeJson_SplitJsonPointer s i =
        (match specSplitFragment (s.drop i) with
         | none => ([], 0)
         | some p => (p.1, i + p.2)) := by
    intro s i
    rw [DecodeJson_SplitJsonPointer,
      splitGo_spec s (s.length - i) i [] (le_refl _)]
    cases specSplitFragment (s.drop i) <;> simp
  refine ⟨hsp, ?_, ?_, ?_⟩
  · intro s i f n hi hile hs
    have h1 : DecodeJson_SplitJsonPointer s i = (f, i + n) := by
      rw [hsp s i, hs]
    refine ⟨h1, by omega, ?_⟩
    obtain ⟨hb1, hb2⟩ := specSplitFragment_bounds _ _ _ hs
    have hlen : (s.drop i).length = s.length - i := by simp
    rcases hb2 with hb2 | hb2
    · left
      omega
    · right
      rw [List.getD_eq_getElem?_getD, ← List.getElem?_drop,
        ← List.getD_eq_getElem?_getD]
      exact hb2
  · intro s i hi h0
    cases hs : specSplitFragment (s.drop i) with
    | none => exact specSplitFragment_none_badTilde _ hs
    | some p =>
      rw [hsp s i, hs] at h0
      dsimp at h0
      omega
  · intro α walk hW s fuel a hf
    obtain ⟨hiff, hsucc⟩ := pointerPhase_bad_iff walk hW s fuel 0 a (by omega)
    constructor
    · exact hiff.trans (claimPointerSyntaxBad_iff s).symm
    · intro hb
      refine hsucc (fun hcon => ?_)
      have hc := (claimPointerSyntaxBad_iff s).mpr hcon
      rw [hb] at hc
      exact absurd hc (by decide)

/-- C7 counterexample input: the JSON Pointer `/a/~` — a walkable fragment
`a` followed by a syntactically invalid lone trailing `~`. -/
def c7CexPointer : List Nat := [47, 97, 47, 126]

/-- C7 counterexample io buffer: the four source bytes of `null`, all
written and unread. -/
def c7CexBuf : IOBuffer := ⟨[110, 117, 108, 108], ⟨4, 0, 0, false⟩⟩

/-- C7 counterexample token script: one literal (non-container) token
covering the four source bytes, so walking the fragment `a` finds no dict or
list to enter. -/
def c7CexTok : Token := ⟨4, VBC.literal, { litNull := true }, false⟩

set_option maxRecDepth 40000 in
/-- C7 counterexample to the original "exactly when": the pointer `/a/~` is
syntactically bad (lone trailing `~`), yet `decodeJson` on a single-literal
input returns the `no match` sentinel, not `bad JSON Pointer`, because the
walk of the earlier fragment `a` fails first. -/
theorem c7_bad_json_pointer_counterexample :
    claimPointerSyntaxBad c7CexPointer = true ∧
    (decodeJson scriptOracle simpleExt recordingCbs (some c7CexBuf) () []
        (some [c7CexTok]) c7CexPointer 8 8).map
        (fun r => r.1.error_message) = some DecodeJson_NoMatch ∧
    DecodeJson_NoMatch ≠ DecodeJson_BadJsonPointer :=
  ⟨by decide, by decide, by decide⟩

/-- C7 witness: the amended theorem at concrete inputs.  Splitting
`/a~0b` after its leading `/` decodes the fragment to `a~b` with next index
at end of string; a pointer with an invalid `~` escape makes the walking
loop (under an always-succeeding per-fragment walk) report `bad JSON
Pointer`; a well-formed pointer makes it complete successfully. -/
theorem c7_bad_json_pointer_witness :
    DecodeJson_SplitJsonPointer [47, 97, 126, 48, 98] 1 = ([97, 126, 98], 5) ∧
    (∃ a', pointerPhase (fun _ (a : Unit) => some ("", a)) 5 [47, 126] 0 () =
        some (DecodeJson_BadJsonPointer, a')) ∧
    (∃ a', pointerPhase (fun _ (a : Unit) => some ("", a)) 5 [47, 97] 0 () =
        some ("", a')) :=
  ⟨(c7_bad_json_pointer.2.1 [47, 97, 126, 48, 98] 1 [97, 126, 98] 4
      (by decide) (by decide) (by decide)).1,
   (c7_bad_json_pointer.2.2.2 Unit (fun _ a => some ("", a))
      (fun _ a => ⟨a, rfl⟩) [47, 126] 5 () (by decide)).1.mpr (by decide),
   (c7_bad_json_pointer.2.2.2 Unit (fun _ a => some ("", a))
      (fun _ a => ⟨a, rfl⟩) [47, 97] 5 () (by decide)).2 (by decide)⟩
